import Mathlib

/-!
Shallow embedding of the fireworks particle engine (src/src/main.rs) and
verification of the specification claims about it.

Modelling conventions:
* `f64` arithmetic is embedded as exact rational (`ℚ`) arithmetic.
* The fixed arrays `[T; 1000]` are embedded as functions `Fin 1000 → T`.
* The thread-local RNG is embedded as an explicit stream `vs : ℕ → Vector` of
  the composite draws `random_unit_vector(rng) * rng.gen_range(0.2..0.4)`
  consumed by the explosion loop, together with a cursor `ridx` counting how
  many draws have been consumed.  The normalisation inside
  `random_unit_vector` divides by the square root of `x² + y²`, which has no
  exact rational embedding; where a claim depends on the produced speeds we
  characterise a draw by its squared norm lying in `[0.2², 0.4²)`, which is
  exactly the property the source construction guarantees for its output.
* Two ghost fields instrument the state without altering the dynamics:
  `events` records the slot index each time the explosion branch of
  `App::on_tick` fires, and `spawnLog` records the target slot of every
  `create_particle` call.
-/

set_option maxHeartbeats 1000000
set_option maxRecDepth 8000

namespace FW

/-- The 2D vector type of the source (`struct Vector { x: f64, y: f64 }`),
with `f64` embedded as `ℚ`. -/
structure Vector where
  x : ℚ
  y : ℚ
deriving DecidableEq

/-- `Vector::zero()`. -/
def Vector.zero : Vector := ⟨0, 0⟩

/-- `impl Add for Vector`. -/
instance : Add Vector := ⟨fun a b => ⟨a.x + b.x, a.y + b.y⟩⟩

/-- `impl Sub for Vector`. -/
instance : Sub Vector := ⟨fun a b => ⟨a.x - b.x, a.y - b.y⟩⟩

/-- `impl Mul<f64> for Vector` (uniform scalar scaling). -/
instance : HMul Vector ℚ Vector := ⟨fun v k => ⟨v.x * k, v.y * k⟩⟩

theorem Vector.add_def (a b : Vector) : a + b = ⟨a.x + b.x, a.y + b.y⟩ := rfl

theorem Vector.sub_def (a b : Vector) : a - b = ⟨a.x - b.x, a.y - b.y⟩ := rfl

theorem Vector.mul_def (v : Vector) (k : ℚ) : v * k = ⟨v.x * k, v.y * k⟩ := rfl

/-- Squared Euclidean norm; used to speak about velocity magnitudes without
leaving `ℚ` (`‖v‖ ∈ [a, b)` for `0 ≤ a` is equivalent to
`normSq v ∈ [a², b²)`). -/
def Vector.normSq (v : Vector) : ℚ := v.x ^ 2 + v.y ^ 2

/-- `struct Particle` with its lifecycle flags. -/
structure Particle where
  pos : Vector
  vel : Vector
  acc : Vector
  dont_delete : Bool
  exploded : Bool
  subparticle : Bool
deriving DecidableEq

/-- `Particle::new`. -/
def Particle.new (is_sub : Bool) (ipos ivel : Vector) : Particle :=
  { pos := ipos, vel := ivel, acc := Vector.zero
    dont_delete := true, exploded := false, subparticle := is_sub }

/-- `Particle::apply_force`. -/
def Particle.apply_force (p : Particle) (force : Vector) : Particle :=
  { p with acc := p.acc + force }

/-- `Particle::update` (the integration step with the retirement rule). -/
def Particle.update (p : Particle) : Particle :=
  if (p.dont_delete = false ∨ p.vel.y ≤ -0.05) ∧ p.subparticle = false then
    { p with dont_delete := false }
  else
    let vel1 := p.vel + p.acc
    let pos1 := p.pos + vel1
    let p1 : Particle := { p with vel := vel1, pos := pos1, acc := p.acc * (0 : ℚ) }
    if p1.subparticle = true then { p1 with vel := p1.vel * (0.98 : ℚ) } else p1

/-- `const MAX_PARTICLES_COLOR: usize = 1000`. -/
def MAX_PARTICLES_COLOR : ℕ := 1000

/-- The `tui` colours used by the source, as an abstract enumeration. -/
inductive ColorTag where
  | blue | green | magenta | red | yellow | white | black
deriving DecidableEq

/-- `const COLORS: [Color; 6]`. -/
def COLORS : List ColorTag :=
  [ColorTag.blue, ColorTag.green, ColorTag.magenta,
   ColorTag.red, ColorTag.yellow, ColorTag.white]

/-- `struct ParticleGroup`: the fixed-capacity pool of one colour. -/
structure ParticleGroup where
  pos : Fin MAX_PARTICLES_COLOR → ℚ × ℚ
  add_at : ℕ
  particles : Fin MAX_PARTICLES_COLOR → Particle
  color : ColorTag

/-- `ParticleGroup::new`. -/
def ParticleGroup.new (color : ColorTag) : ParticleGroup :=
  { pos := fun _ => (-9999.9, -9999.9)
    add_at := 0
    particles := fun _ => Particle.new false ⟨-999.9, -999.9⟩ Vector.zero
    color := color }

/-- `create_particle`: unconditional overwrite at the write cursor, cursor
advanced with wraparound.  The source indexes the fixed arrays directly with
`add_at`; the out-of-range branch (which would panic in Rust) is modelled as
the identity and is proved unreachable from the cursor invariant. -/
def create_particle (pgroup : ParticleGroup) (is_sub : Bool) (pos vel : Vector) :
    ParticleGroup :=
  if h : pgroup.add_at < MAX_PARTICLES_COLOR then
    { pgroup with
      particles :=
        Function.update pgroup.particles ⟨pgroup.add_at, h⟩ (Particle.new is_sub pos vel)
      pos := Function.update pgroup.pos ⟨pgroup.add_at, h⟩ (pos.x, pos.y)
      add_at :=
        if pgroup.add_at + 1 = MAX_PARTICLES_COLOR then 0 else pgroup.add_at + 1 }
  else pgroup

/-- State threaded through one group's slice of `App::on_tick`: the group
itself, the RNG draw cursor, and the two ghost logs (explosion events and
spawn targets). -/
structure TickState where
  grp : ParticleGroup
  ridx : ℕ
  events : List ℕ
  spawnLog : List ℕ

/-- One iteration of the explosion burst loop
(`create_particle(group, true, group.particles[i].pos, random_unit_vector(..) * gen_range(0.2..0.4))`).
The position argument is re-read from slot `i` on every iteration, exactly as
in the source.  The numeric loop counter is ignored (`for _ in 1..20`). -/
def spawnStep (vs : ℕ → Vector) (i : Fin MAX_PARTICLES_COLOR) (s : TickState)
    (_ : ℕ) : TickState :=
  { grp := create_particle s.grp true (s.grp.particles i).pos (vs s.ridx)
    ridx := s.ridx + 1
    events := s.events
    spawnLog := s.spawnLog ++ [s.grp.add_at] }

/-- Gravity followed by integration: the per-slot particle step
`particles[i].apply_force(gravity); particles[i].update()`. -/
def stepP (g : Vector) (p : Particle) : Particle := (p.apply_force g).update

/-- Lines `particle_group.particles[i].apply_force(..); ..update(); pos[i] = ..`
of `App::on_tick`: integrate the particle in slot `fi` and refresh the
coordinate entry from its new position. -/
def integrateSlot (g : Vector) (s : TickState) (fi : Fin MAX_PARTICLES_COLOR) : TickState :=
  { s with grp := { s.grp with
      particles := Function.update s.grp.particles fi (stepP g (s.grp.particles fi))
      pos := Function.update s.grp.pos fi
        ((stepP g (s.grp.particles fi)).pos.x, (stepP g (s.grp.particles fi)).pos.y) } }

/-- `particle_group.particles[i].exploded = true` after the burst loop:
the flag is set on whatever particle occupies slot `fi` at that point (which
is the freshly spawned sub-particle if the burst wrapped onto slot `fi`). -/
def latchExploded (fi : Fin MAX_PARTICLES_COLOR) (s : TickState) : TickState :=
  { s with grp := { s.grp with
      particles := Function.update s.grp.particles fi
        ({ s.grp.particles fi with exploded := true }) } }

/-- The retirement/explosion block of `App::on_tick`
(`if !particle_group.particles[i].dont_delete { .. }`), reading the already
integrated slot exactly as the source re-reads the mutated array:
push the off-canvas sentinel, and for an unexploded non-sub particle run the
19-iteration burst loop and latch `exploded`. -/
def processSlotB (vs : ℕ → Vector) (s : TickState) (fi : Fin MAX_PARTICLES_COLOR) :
    TickState :=
  if (s.grp.particles fi).dont_delete = true then s
  else if (s.grp.particles fi).exploded = false ∧ (s.grp.particles fi).subparticle = false then
    latchExploded fi ((List.range 19).foldl (spawnStep vs fi)
      { s with
        grp := { s.grp with pos := Function.update s.grp.pos fi (9999.9, 9999.9) }
        events := s.events ++ [fi.val] })
  else
    { s with grp := { s.grp with pos := Function.update s.grp.pos fi (9999.9, 9999.9) } }

/-- The body of `App::on_tick` for one slot index `i` of one group. -/
def processSlot (g : Vector) (vs : ℕ → Vector) (s : TickState) (i : ℕ) : TickState :=
  if h : i < MAX_PARTICLES_COLOR then
    processSlotB vs (integrateSlot g s ⟨i, h⟩) ⟨i, h⟩
  else s

/-- One group's slice of `App::on_tick`: the inner `for i in 0..MAX_PARTICLES_COLOR`
loop. -/
def on_tick_group (g : Vector) (vs : ℕ → Vector) (s : TickState) : TickState :=
  (List.range MAX_PARTICLES_COLOR).foldl (processSlot g vs) s

/-- `n` consecutive calls of the per-group tick (the RNG cursor and the ghost
logs persist across calls). -/
def group_ticks (g : Vector) (vs : ℕ → Vector) (n : ℕ) (s : TickState) : TickState :=
  (on_tick_group g vs)^[n] s

/-- The operations the external loop performs on one group: a tick, or a
launch via `create_particle` (the spawn target is recorded in the ghost
log, as inside the tick). -/
inductive Op where
  | tick (vs : ℕ → Vector)
  | spawn (is_sub : Bool) (pos vel : Vector)

/-- Interpret one operation. -/
def runOp (g : Vector) (s : TickState) : Op → TickState
  | Op.tick vs => on_tick_group g vs s
  | Op.spawn b p v =>
      { s with grp := create_particle s.grp b p v
               spawnLog := s.spawnLog ++ [s.grp.add_at] }

/-- Interpret a sequence of operations. -/
def runOps (g : Vector) (s : TickState) (l : List Op) : TickState :=
  l.foldl (runOp g) s

/-- `struct App`: one group per colour, the gravity vector, and the RNG —
here the ghost draw cursor `ridx` plus a cumulative ghost event log
`events` (entries `(group index, slot index)`). -/
structure App where
  particle_groups : Fin COLORS.length → ParticleGroup
  gravity : Vector
  ridx : ℕ
  events : List (ℕ × ℕ)

/-- `App::new`: every group is `ParticleGroup::new(Color::Black)` with its
colour then overwritten from `COLORS`. -/
def App.new : App :=
  { particle_groups := fun c => { ParticleGroup.new ColorTag.black with color := COLORS.get c }
    gravity := ⟨0, -0.004⟩
    ridx := 0
    events := [] }

/-- One group's turn inside `App::on_tick`'s outer loop. -/
def on_tick_app_step (vs : ℕ → Vector) (a : App) (c : Fin COLORS.length) : App :=
  let t := on_tick_group a.gravity vs
    { grp := a.particle_groups c, ridx := a.ridx, events := [], spawnLog := [] }
  { a with
    particle_groups := Function.update a.particle_groups c t.grp
    ridx := t.ridx
    events := a.events ++ t.events.map (fun e => (c.val, e)) }

/-- `App::on_tick`: advance every group by one time step. -/
def App.on_tick (vs : ℕ → Vector) (a : App) : App :=
  (List.finRange COLORS.length).foldl (on_tick_app_step vs) a

/-- `n` consecutive calls of `App::on_tick`. -/
def App.ticks (vs : ℕ → Vector) (n : ℕ) (a : App) : App :=
  (App.on_tick vs)^[n] a

/-- A particle that can never fire the explosion branch: already latched or a
sub-particle. -/
def ESub (p : Particle) : Prop := p.exploded = true ∨ p.subparticle = true

/-- Fold of `create_particle` over a list of launch specifications
`(is_sub, position, velocity)`. -/
def create_seq (pg : ParticleGroup) (l : List (Bool × Vector × Vector)) : ParticleGroup :=
  l.foldl (fun pg c => create_particle pg c.1 c.2.1 c.2.2) pg

/-- The cursor/spawn-log coupling: after `n` spawns from a fresh group the
cursor is `n % N` and the logged targets are `0 % N, 1 % N, …, (n−1) % N` in
order. -/
def LInv (t : TickState) : Prop :=
  ∃ n : ℕ, t.grp.add_at = n % MAX_PARTICLES_COLOR ∧
    t.spawnLog = (List.range n).map (· % MAX_PARTICLES_COLOR)

/-- A group fresh out of `ParticleGroup::new`, wrapped in an initial tick
state (no draws consumed, empty ghost logs). -/
def freshTickState (c : ColorTag) : TickState :=
  { grp := ParticleGroup.new c
    ridx := 0
    events := []
    spawnLog := [] }

/-- The coordinate-sync property of one slot: an alive particle has its
position mirrored in the coordinate array, a retired one has the off-canvas
sentinel `(9999.9, 9999.9)` there. -/
def gslotInv (pg : ParticleGroup) (j : Fin MAX_PARTICLES_COLOR) : Prop :=
  ((pg.particles j).dont_delete = true →
    pg.pos j = ((pg.particles j).pos.x, (pg.particles j).pos.y)) ∧
  ((pg.particles j).dont_delete = false → pg.pos j = (9999.9, 9999.9))

/-! ### Witness scaffolding -/

/-- The gravity vector of `App::new`. -/
def gravity0 : Vector := ⟨0, -0.004⟩

/-- A fixed draw stream used by witnesses: every burst draw is `(0, -0.3)`,
a possible output of `random_unit_vector * uniform(0.2, 0.4)` (squared norm
`0.09 ∈ [0.04, 0.16)`). -/
def vs0 : ℕ → Vector := fun _ => ⟨0, -0.3⟩

/-- Slot index 0. -/
def idx0 : Fin MAX_PARTICLES_COLOR := ⟨0, Nat.succ_pos 999⟩

/-- Slot index 1. -/
def idx1 : Fin MAX_PARTICLES_COLOR := ⟨1, by norm_num [MAX_PARTICLES_COLOR]⟩

/-- Slot index 5. -/
def idx5 : Fin MAX_PARTICLES_COLOR := ⟨5, by norm_num [MAX_PARTICLES_COLOR]⟩

/-- A tick-state whose group is fresh except that every slot holds `p`. -/
def mkTickState (p : Particle) : TickState :=
  { grp := { ParticleGroup.new ColorTag.blue with particles := fun _ => p }
    ridx := 0
    events := []
    spawnLog := [] }

/-- The state on which the 19-iteration burst loop starts when slot `i`
fires: slot `i` already integrated, its coordinate entry pushed to the
off-canvas sentinel, and the firing logged in the ghost event list. -/
def explodeBase (g : Vector) (s : TickState) (i : Fin MAX_PARTICLES_COLOR) : TickState :=
  { integrateSlot g s i with
    grp := { (integrateSlot g s i).grp with
      pos := Function.update (integrateSlot g s i).grp.pos i (9999.9, 9999.9) }
    events := (integrateSlot g s i).events ++ [i.val] }

/-- `n` repetitions of the per-particle step (gravity plus integration). -/
def stepN (g : Vector) (n : ℕ) (p : Particle) : Particle := (stepP g)^[n] p

/-- The particle `ParticleGroup::new` places in every slot: an alive,
unexploded main particle parked at `(-999.9, -999.9)` with zero velocity. -/
def placeholder : Particle := Particle.new false ⟨-999.9, -999.9⟩ Vector.zero

/-- Slot index 999 (the last slot). -/
def idx999 : Fin MAX_PARTICLES_COLOR := ⟨999, by norm_num [MAX_PARTICLES_COLOR]⟩

/-- Colour-group index 0. -/
def cidx0 : Fin COLORS.length := ⟨0, by norm_num [COLORS]⟩

/-- C2 counterexample: the retiring main particle, placed in slot 0. -/
def C2cexM : Particle := Particle.new false ⟨3, 50⟩ ⟨0, -0.06⟩

/-- C2 counterexample: the alive sub-particle filling every other slot. -/
def C2cexQ : Particle := Particle.new true ⟨0, 0⟩ ⟨0, 0⟩

/-- C2 counterexample state: the main particle about to retire sits in
slot 0 while the write cursor is 1, so the burst lands in slots 1–19, which
are re-integrated (and damped) later in the same tick. -/
def C2cexState : TickState :=
  { grp := { pos := fun _ => (0, 0)
             add_at := 1
             particles := fun j => if j = idx0 then C2cexM else C2cexQ
             color := ColorTag.blue }
    ridx := 0
    events := []
    spawnLog := [] }

/-- C2 counterexample draw stream: every burst draw is `(0, -0.2)`, of
squared norm exactly `0.04` — speed `0.2`, the bottom of `[0.2, 0.4)`. -/
def vsC2 : ℕ → Vector := fun _ => ⟨0, -0.2⟩

/-- Witness for the amended C2: the retiring main particle, in slot 999. -/
def C2witM : Particle := Particle.new false ⟨0, -50⟩ ⟨0, -0.06⟩

/-- Witness state for the amended C2: the retiring main in the last slot,
cursor 0, every other slot an alive sub-particle. -/
def C2witState : TickState :=
  { grp := { pos := fun _ => (0, 0)
             add_at := 0
             particles := fun j => if j = idx999 then C2witM else C2cexQ
             color := ColorTag.green }
    ridx := 0
    events := []
    spawnLog := [] }

/-- Uniform state after `k` ticks of a fresh engine: every slot of every
group holds the placeholder stepped `k` times, no spawns have happened and
no explosion has been logged. -/
def AppU (k : ℕ) (a : App) : Prop :=
  a.gravity = gravity0 ∧ a.events = [] ∧
  ∀ c : Fin COLORS.length, (a.particle_groups c).add_at = 0 ∧
    ∀ j : Fin MAX_PARTICLES_COLOR,
      (a.particle_groups c).particles j = stepN gravity0 k placeholder

/-! ### Basic lemmas about the particle step -/

theorem Vector.mul_zero (v : Vector) : v * (0 : ℚ) = Vector.zero := by
  simp [Vector.mul_def, Vector.zero]

theorem Particle.update_retire (p : Particle) (hs : p.subparticle = false)
    (hr : p.dont_delete = false ∨ p.vel.y ≤ -0.05) :
    p.update = { p with dont_delete := false } := by
  unfold Particle.update
  rw [if_pos ⟨hr, hs⟩]

theorem Particle.update_live_main (p : Particle) (hs : p.subparticle = false)
    (hd : p.dont_delete = true) (hv : ¬p.vel.y ≤ -0.05) :
    p.update = { p with vel := p.vel + p.acc, pos := p.pos + (p.vel + p.acc),
                        acc := Vector.zero } := by
  unfold Particle.update
  rw [if_neg, if_neg]
  · simp [Vector.mul_zero]
  · simp [hs]
  · rintro ⟨h1 | h1, -⟩
    · rw [hd] at h1; cases h1
    · exact hv h1

theorem Particle.update_sub (p : Particle) (hs : p.subparticle = true) :
    p.update = { p with vel := (p.vel + p.acc) * (0.98 : ℚ),
                        pos := p.pos + (p.vel + p.acc), acc := Vector.zero } := by
  unfold Particle.update
  rw [if_neg, if_pos]
  · simp [Vector.mul_zero]
  · exact hs
  · rintro ⟨-, h2⟩
    rw [hs] at h2; cases h2

theorem Particle.apply_force_def (p : Particle) (f : Vector) :
    p.apply_force f = { p with acc := p.acc + f } := rfl

theorem stepP_retire (g : Vector) (p : Particle) (hs : p.subparticle = false)
    (hr : p.dont_delete = false ∨ p.vel.y ≤ -0.05) :
    stepP g p = { p with acc := p.acc + g, dont_delete := false } := by
  unfold stepP
  exact Particle.update_retire _ hs hr

theorem stepP_live_main (g : Vector) (p : Particle) (hs : p.subparticle = false)
    (hd : p.dont_delete = true) (hv : ¬p.vel.y ≤ -0.05) :
    stepP g p = { p with vel := p.vel + (p.acc + g),
                         pos := p.pos + (p.vel + (p.acc + g)), acc := Vector.zero } := by
  unfold stepP
  exact Particle.update_live_main _ hs hd hv

theorem stepP_sub (g : Vector) (p : Particle) (hs : p.subparticle = true) :
    stepP g p = { p with vel := (p.vel + (p.acc + g)) * (0.98 : ℚ),
                         pos := p.pos + (p.vel + (p.acc + g)), acc := Vector.zero } := by
  unfold stepP
  exact Particle.update_sub _ hs

theorem Particle.update_flags (p : Particle) :
    p.update.exploded = p.exploded ∧ p.update.subparticle = p.subparticle := by
  unfold Particle.update
  by_cases h : (p.dont_delete = false ∨ p.vel.y ≤ -0.05) ∧ p.subparticle = false
  · rw [if_pos h]; exact ⟨rfl, rfl⟩
  · rw [if_neg h]
    by_cases h2 : p.subparticle = true
    · rw [if_pos h2]; exact ⟨rfl, rfl⟩
    · rw [if_neg h2]; exact ⟨rfl, rfl⟩

theorem stepP_flags (g : Vector) (p : Particle) :
    (stepP g p).exploded = p.exploded ∧ (stepP g p).subparticle = p.subparticle :=
  Particle.update_flags _

theorem Particle.update_dd_of_sub (p : Particle) (hs : p.subparticle = true) :
    p.update.dont_delete = p.dont_delete := by
  rw [Particle.update_sub _ hs]

theorem stepP_dd_of_sub (g : Vector) (p : Particle) (hs : p.subparticle = true) :
    (stepP g p).dont_delete = p.dont_delete :=
  Particle.update_dd_of_sub _ hs

theorem Particle.new_sub_flags (pos vel : Vector) :
    (Particle.new true pos vel).subparticle = true ∧
    (Particle.new true pos vel).dont_delete = true ∧
    (Particle.new true pos vel).exploded = false :=
  ⟨rfl, rfl, rfl⟩

/-! ### Generic fold invariance -/

theorem foldl_pres {α : Type _} {β : Type _} (f : α → β → α) (P : α → Prop) :
    ∀ (l : List β) (a : α), (∀ x ∈ l, ∀ b, P b → P (f b x)) → P a → P (l.foldl f a)
  | [], _, _, ha => ha
  | x :: l, a, h, ha =>
    foldl_pres f P l (f a x)
      (fun y hy b hb => h y (List.mem_cons_of_mem _ hy) b hb)
      (h x (List.mem_cons_self _ _) a ha)

theorem range_split (n j : ℕ) (h : j < n) :
    List.range n =
      List.range j ++ j :: (List.range (n - (j + 1))).map (fun x => j + 1 + x) := by
  have h1 : n = j + 1 + (n - (j + 1)) := by omega
  calc List.range n
      = List.range (j + 1) ++ (List.range (n - (j + 1))).map (fun x => j + 1 + x) := by
        rw [← List.range_add, ← h1]
    _ = List.range j ++ j :: (List.range (n - (j + 1))).map (fun x => j + 1 + x) := by
        rw [List.range_succ, List.append_assoc]
        rfl

/-! ### Frame and preservation lemmas for `create_particle` -/

theorem create_particle_particles_pred (pg : ParticleGroup) (b : Bool) (pos vel : Vector)
    (Q : Particle → Prop) (hQnew : Q (Particle.new b pos vel))
    (j : Fin MAX_PARTICLES_COLOR) (hQ : Q (pg.particles j)) :
    Q ((create_particle pg b pos vel).particles j) := by
  unfold create_particle
  split
  · next h =>
    by_cases hj : j = (⟨pg.add_at, h⟩ : Fin MAX_PARTICLES_COLOR)
    · subst hj
      simpa [Function.update_same] using hQnew
    · simpa [Function.update_noteq hj] using hQ
  · exact hQ

theorem create_particle_pair (pg : ParticleGroup) (b : Bool) (pos vel : Vector)
    (j : Fin MAX_PARTICLES_COLOR) :
    ((create_particle pg b pos vel).particles j = pg.particles j ∧
     (create_particle pg b pos vel).pos j = pg.pos j) ∨
    ((create_particle pg b pos vel).particles j = Particle.new b pos vel ∧
     (create_particle pg b pos vel).pos j = (pos.x, pos.y)) := by
  unfold create_particle
  split
  · next h =>
    by_cases hj : j = (⟨pg.add_at, h⟩ : Fin MAX_PARTICLES_COLOR)
    · subst hj
      right
      constructor <;> simp [Function.update_same]
    · left
      constructor <;> simp [Function.update_noteq hj]
  · left
    exact ⟨rfl, rfl⟩

theorem create_particle_target (pg : ParticleGroup) (b : Bool) (pos vel : Vector)
    (h : pg.add_at < MAX_PARTICLES_COLOR) :
    (create_particle pg b pos vel).particles ⟨pg.add_at, h⟩ = Particle.new b pos vel ∧
    (create_particle pg b pos vel).pos ⟨pg.add_at, h⟩ = (pos.x, pos.y) := by
  unfold create_particle
  rw [dif_pos h]
  constructor <;> simp [Function.update_same]

theorem create_particle_target_at (pg : ParticleGroup) (b : Bool) (pos vel : Vector)
    (j : Fin MAX_PARTICLES_COLOR) (hj : pg.add_at = j.val) :
    (create_particle pg b pos vel).particles j = Particle.new b pos vel ∧
    (create_particle pg b pos vel).pos j = (pos.x, pos.y) := by
  have h : pg.add_at < MAX_PARTICLES_COLOR := by
    rw [hj]
    exact j.isLt
  have h2 : (⟨pg.add_at, h⟩ : Fin MAX_PARTICLES_COLOR) = j := Fin.ext hj
  rw [← h2]
  exact create_particle_target pg b pos vel h

theorem create_particle_frame (pg : ParticleGroup) (b : Bool) (pos vel : Vector)
    (j : Fin MAX_PARTICLES_COLOR) (hj : j.val ≠ pg.add_at) :
    (create_particle pg b pos vel).particles j = pg.particles j ∧
    (create_particle pg b pos vel).pos j = pg.pos j := by
  unfold create_particle
  split
  · next h =>
    have hne : j ≠ (⟨pg.add_at, h⟩ : Fin MAX_PARTICLES_COLOR) := by
      intro he
      exact hj (by rw [he])
    constructor <;> simp [Function.update_noteq hne]
  · exact ⟨rfl, rfl⟩

theorem create_particle_color (pg : ParticleGroup) (b : Bool) (pos vel : Vector) :
    (create_particle pg b pos vel).color = pg.color := by
  unfold create_particle
  split <;> rfl

theorem MAX_pos : 0 < MAX_PARTICLES_COLOR := by norm_num [MAX_PARTICLES_COLOR]

theorem create_particle_add_at (pg : ParticleGroup) (b : Bool) (pos vel : Vector)
    (h : pg.add_at < MAX_PARTICLES_COLOR) :
    (create_particle pg b pos vel).add_at = (pg.add_at + 1) % MAX_PARTICLES_COLOR := by
  unfold create_particle
  rw [dif_pos h]
  by_cases h2 : pg.add_at + 1 = MAX_PARTICLES_COLOR
  · simp [h2]
  · have h3 : pg.add_at + 1 < MAX_PARTICLES_COLOR := by omega
    simp [h2, Nat.mod_eq_of_lt h3]

theorem create_particle_add_at_lt (pg : ParticleGroup) (b : Bool) (pos vel : Vector)
    (h : pg.add_at < MAX_PARTICLES_COLOR) :
    (create_particle pg b pos vel).add_at < MAX_PARTICLES_COLOR := by
  rw [create_particle_add_at pg b pos vel h]
  exact Nat.mod_lt _ MAX_pos

/-! ### Frame lemmas for the burst loop and the slot body -/

theorem spawnStep_grp (vs : ℕ → Vector) (i : Fin MAX_PARTICLES_COLOR) (s : TickState) (k : ℕ) :
    (spawnStep vs i s k).grp = create_particle s.grp true (s.grp.particles i).pos (vs s.ridx) :=
  rfl

theorem spawnStep_ridx (vs : ℕ → Vector) (i : Fin MAX_PARTICLES_COLOR) (s : TickState) (k : ℕ) :
    (spawnStep vs i s k).ridx = s.ridx + 1 := rfl

theorem spawnStep_events (vs : ℕ → Vector) (i : Fin MAX_PARTICLES_COLOR) (s : TickState) (k : ℕ) :
    (spawnStep vs i s k).events = s.events := rfl

theorem spawnStep_spawnLog (vs : ℕ → Vector) (i : Fin MAX_PARTICLES_COLOR) (s : TickState)
    (k : ℕ) : (spawnStep vs i s k).spawnLog = s.spawnLog ++ [s.grp.add_at] := rfl

theorem spawnFold_events (vs : ℕ → Vector) (i : Fin MAX_PARTICLES_COLOR) (l : List ℕ)
    (s : TickState) : (l.foldl (spawnStep vs i) s).events = s.events :=
  foldl_pres (spawnStep vs i) (fun t => t.events = s.events) l s
    (fun k _ t ht => by
      show (spawnStep vs i t k).events = s.events
      rw [spawnStep_events]
      exact ht) rfl

theorem spawnFold_particles_pred (vs : ℕ → Vector) (i : Fin MAX_PARTICLES_COLOR)
    (l : List ℕ) (Q : Particle → Prop) (hQnew : ∀ pos vel, Q (Particle.new true pos vel))
    (j : Fin MAX_PARTICLES_COLOR) (s : TickState) (hQ : Q (s.grp.particles j)) :
    Q ((l.foldl (spawnStep vs i) s).grp.particles j) :=
  foldl_pres (spawnStep vs i) (fun t => Q (t.grp.particles j)) l s
    (fun k _ t ht => by
      show Q ((spawnStep vs i t k).grp.particles j)
      rw [spawnStep_grp]
      exact create_particle_particles_pred _ _ _ _ Q (hQnew _ _) j ht) hQ

theorem latchExploded_events (fi : Fin MAX_PARTICLES_COLOR) (s : TickState) :
    (latchExploded fi s).events = s.events := rfl

theorem latchExploded_add_at (fi : Fin MAX_PARTICLES_COLOR) (s : TickState) :
    (latchExploded fi s).grp.add_at = s.grp.add_at := rfl

theorem latchExploded_particles_ne (fi j : Fin MAX_PARTICLES_COLOR) (s : TickState)
    (hj : j ≠ fi) : (latchExploded fi s).grp.particles j = s.grp.particles j := by
  unfold latchExploded
  simp [Function.update_noteq hj]

theorem latchExploded_particles_self (fi : Fin MAX_PARTICLES_COLOR) (s : TickState) :
    (latchExploded fi s).grp.particles fi = { s.grp.particles fi with exploded := true } := by
  unfold latchExploded
  simp [Function.update_same]

theorem integrateSlot_particles_self (g : Vector) (s : TickState)
    (fi : Fin MAX_PARTICLES_COLOR) :
    (integrateSlot g s fi).grp.particles fi = stepP g (s.grp.particles fi) := by
  unfold integrateSlot
  simp [Function.update_same]

theorem integrateSlot_particles_ne (g : Vector) (s : TickState)
    (fi j : Fin MAX_PARTICLES_COLOR) (hj : j ≠ fi) :
    (integrateSlot g s fi).grp.particles j = s.grp.particles j := by
  unfold integrateSlot
  simp [Function.update_noteq hj]

theorem integrateSlot_events (g : Vector) (s : TickState) (fi : Fin MAX_PARTICLES_COLOR) :
    (integrateSlot g s fi).events = s.events := rfl

theorem integrateSlot_add_at (g : Vector) (s : TickState) (fi : Fin MAX_PARTICLES_COLOR) :
    (integrateSlot g s fi).grp.add_at = s.grp.add_at := rfl

theorem processSlot_eq (g : Vector) (vs : ℕ → Vector) (s : TickState) (i : ℕ)
    (h : i < MAX_PARTICLES_COLOR) :
    processSlot g vs s i = processSlotB vs (integrateSlot g s ⟨i, h⟩) ⟨i, h⟩ := by
  unfold processSlot
  rw [dif_pos h]

theorem processSlotB_live (vs : ℕ → Vector) (s : TickState) (fi : Fin MAX_PARTICLES_COLOR)
    (hd : (s.grp.particles fi).dont_delete = true) : processSlotB vs s fi = s := by
  unfold processSlotB
  rw [if_pos hd]

theorem processSlotB_dead_noburst (vs : ℕ → Vector) (s : TickState)
    (fi : Fin MAX_PARTICLES_COLOR) (hd : (s.grp.particles fi).dont_delete = false)
    (hE : (s.grp.particles fi).exploded = true ∨ (s.grp.particles fi).subparticle = true) :
    processSlotB vs s fi =
      { s with grp := { s.grp with
          pos := Function.update s.grp.pos fi (9999.9, 9999.9) } } := by
  unfold processSlotB
  rw [if_neg (by simp [hd]), if_neg]
  rintro ⟨h1, h2⟩
  rcases hE with h | h
  · rw [h1] at h; cases h
  · rw [h2] at h; cases h

theorem processSlotB_explode (vs : ℕ → Vector) (s : TickState)
    (fi : Fin MAX_PARTICLES_COLOR) (hd : (s.grp.particles fi).dont_delete = false)
    (he : (s.grp.particles fi).exploded = false)
    (hs : (s.grp.particles fi).subparticle = false) :
    processSlotB vs s fi =
      latchExploded fi ((List.range 19).foldl (spawnStep vs fi)
        { s with
          grp := { s.grp with pos := Function.update s.grp.pos fi (9999.9, 9999.9) }
          events := s.events ++ [fi.val] }) := by
  unfold processSlotB
  rw [if_neg (by simp [hd]), if_pos ⟨he, hs⟩]

/-! ### Per-slot predicate preservation -/

theorem processSlotB_pred (vs : ℕ → Vector) (Q : Particle → Prop)
    (hQnew : ∀ pos vel, Q (Particle.new true pos vel))
    (fi j : Fin MAX_PARTICLES_COLOR)
    (hlatch : j = fi → ∀ p, Q p → Q ({ p with exploded := true }))
    (s : TickState) (hQ : Q (s.grp.particles j)) :
    Q ((processSlotB vs s fi).grp.particles j) := by
  unfold processSlotB
  split
  · exact hQ
  · split
    · by_cases hj : j = fi
      · subst hj
        rw [latchExploded_particles_self]
        exact hlatch rfl _ (spawnFold_particles_pred vs j _ Q hQnew j _ hQ)
      · rw [latchExploded_particles_ne _ _ _ hj]
        exact spawnFold_particles_pred vs fi _ Q hQnew j _ hQ
    · exact hQ

theorem processSlot_pred (g : Vector) (vs : ℕ → Vector) (Q : Particle → Prop)
    (hQnew : ∀ pos vel, Q (Particle.new true pos vel))
    (j : Fin MAX_PARTICLES_COLOR) (i : ℕ) (s : TickState)
    (hself : i = j.val →
      (∀ p, Q p → Q (stepP g p)) ∧ (∀ p, Q p → Q ({ p with exploded := true })))
    (hQ : Q (s.grp.particles j)) :
    Q ((processSlot g vs s i).grp.particles j) := by
  unfold processSlot
  split
  · next h =>
    refine processSlotB_pred vs Q hQnew ⟨i, h⟩ j (fun hj => (hself (by rw [hj])).2) _ ?_
    by_cases hj : j = (⟨i, h⟩ : Fin MAX_PARTICLES_COLOR)
    · subst hj
      rw [integrateSlot_particles_self]
      exact (hself rfl).1 _ hQ
    · rw [integrateSlot_particles_ne _ _ _ _ hj]
      exact hQ
  · exact hQ

theorem on_tick_group_eq_fold (g : Vector) (vs : ℕ → Vector) (s : TickState) :
    on_tick_group g vs s = (List.range MAX_PARTICLES_COLOR).foldl (processSlot g vs) s := rfl

theorem processSlot_pred_all (g : Vector) (vs : ℕ → Vector) (Q : Particle → Prop)
    (hQnew : ∀ pos vel, Q (Particle.new true pos vel))
    (hQlatch : ∀ p, Q p → Q ({ p with exploded := true }))
    (hQstep : ∀ p, Q p → Q (stepP g p))
    (j : Fin MAX_PARTICLES_COLOR) (i : ℕ) (t : TickState) (ht : Q (t.grp.particles j)) :
    Q ((processSlot g vs t i).grp.particles j) :=
  processSlot_pred g vs Q hQnew j i t (fun _ => ⟨hQstep, hQlatch⟩) ht

theorem tick_fold_pred (g : Vector) (vs : ℕ → Vector) (Q : Particle → Prop)
    (hQnew : ∀ pos vel, Q (Particle.new true pos vel))
    (hQlatch : ∀ p, Q p → Q ({ p with exploded := true }))
    (hQstep : ∀ p, Q p → Q (stepP g p))
    (j : Fin MAX_PARTICLES_COLOR) (l : List ℕ) (s : TickState)
    (hQ : Q (s.grp.particles j)) :
    Q ((l.foldl (processSlot g vs) s).grp.particles j) :=
  foldl_pres (processSlot g vs) (fun t => Q (t.grp.particles j)) l s
    (fun i _ t ht => processSlot_pred_all g vs Q hQnew hQlatch hQstep j i t ht) hQ

theorem on_tick_group_pred (g : Vector) (vs : ℕ → Vector) (Q : Particle → Prop)
    (hQnew : ∀ pos vel, Q (Particle.new true pos vel))
    (hQlatch : ∀ p, Q p → Q ({ p with exploded := true }))
    (hQstep : ∀ p, Q p → Q (stepP g p))
    (j : Fin MAX_PARTICLES_COLOR) (s : TickState) (hQ : Q (s.grp.particles j)) :
    Q ((on_tick_group g vs s).grp.particles j) := by
  rw [on_tick_group_eq_fold]
  exact tick_fold_pred g vs Q hQnew hQlatch hQstep j (List.range MAX_PARTICLES_COLOR) s hQ

/-! ### Event-log lemmas -/

theorem processSlot_events_cases (g : Vector) (vs : ℕ → Vector) (s : TickState) (i : ℕ) :
    (processSlot g vs s i).events = s.events ∨
    (processSlot g vs s i).events = s.events ++ [i] := by
  unfold processSlot
  split
  · next h =>
    unfold processSlotB
    split
    · left
      rfl
    · split
      · right
        rw [latchExploded_events, spawnFold_events]
        rfl
      · left
        rfl
  · left
    rfl

theorem processSlot_events_mono (g : Vector) (vs : ℕ → Vector) (s : TickState) (i : ℕ)
    (x : ℕ) (hx : x ∈ s.events) : x ∈ (processSlot g vs s i).events := by
  rcases processSlot_events_cases g vs s i with h | h <;> rw [h]
  · exact hx
  · exact List.mem_append_left _ hx

theorem processSlot_noevent (g : Vector) (vs : ℕ → Vector) (j : Fin MAX_PARTICLES_COLOR)
    (s : TickState)
    (hE : (s.grp.particles j).exploded = true ∨ (s.grp.particles j).subparticle = true) :
    (processSlot g vs s j.val).events = s.events := by
  unfold processSlot
  rw [dif_pos j.isLt]
  rw [show (⟨j.val, j.isLt⟩ : Fin MAX_PARTICLES_COLOR) = j from rfl]
  have hEi : ((integrateSlot g s j).grp.particles j).exploded = true ∨
      ((integrateSlot g s j).grp.particles j).subparticle = true := by
    rw [integrateSlot_particles_self]
    rcases hE with h | h
    · left
      rw [(stepP_flags g _).1, h]
    · right
      rw [(stepP_flags g _).2, h]
  unfold processSlotB
  split
  · rfl
  · split
    · next hguard =>
      exfalso
      rcases hEi with h | h
      · rw [hguard.1] at h
        cases h
      · rw [hguard.2] at h
        cases h
    · rfl

theorem ESub_new (pos vel : Vector) : ESub (Particle.new true pos vel) := Or.inr rfl

theorem ESub_latch (p : Particle) (_ : ESub p) : ESub ({ p with exploded := true }) :=
  Or.inl rfl

theorem ESub_step (g : Vector) (p : Particle) (h : ESub p) : ESub (stepP g p) := by
  rcases h with h | h
  · left
    rw [(stepP_flags g p).1, h]
  · right
    rw [(stepP_flags g p).2, h]

theorem processSlot_pred_ne (g : Vector) (vs : ℕ → Vector) (Q : Particle → Prop)
    (hQnew : ∀ pos vel, Q (Particle.new true pos vel))
    (j : Fin MAX_PARTICLES_COLOR) (i : ℕ) (hne : i ≠ j.val) (t : TickState)
    (hQ : Q (t.grp.particles j)) : Q ((processSlot g vs t i).grp.particles j) := by
  unfold processSlot
  split
  · next h =>
    have hj : j ≠ (⟨i, h⟩ : Fin MAX_PARTICLES_COLOR) := by
      intro he
      exact hne (by rw [he])
    refine processSlotB_pred vs Q hQnew ⟨i, h⟩ j (fun hj2 => absurd hj2 hj) _ ?_
    rw [integrateSlot_particles_ne _ _ _ _ hj]
    exact hQ
  · exact hQ

theorem processSlot_keep_noevent (g : Vector) (vs : ℕ → Vector)
    (j : Fin MAX_PARTICLES_COLOR) (i : ℕ) (t : TickState)
    (ht : ESub (t.grp.particles j) ∧ j.val ∉ t.events) :
    ESub ((processSlot g vs t i).grp.particles j) ∧
      j.val ∉ (processSlot g vs t i).events := by
  refine ⟨processSlot_pred_all g vs ESub ESub_new ESub_latch (ESub_step g) j i t ht.1, ?_⟩
  by_cases hij : i = j.val
  · subst hij
    rw [processSlot_noevent g vs j t ht.1]
    exact ht.2
  · rcases processSlot_events_cases g vs t i with h | h <;> rw [h]
    · exact ht.2
    · intro hmem
      rcases List.mem_append.mp hmem with h1 | h1
      · exact ht.2 h1
      · exact hij (List.mem_singleton.mp h1).symm

theorem tick_fold_noevent (g : Vector) (vs : ℕ → Vector) (j : Fin MAX_PARTICLES_COLOR)
    (l : List ℕ) (s : TickState)
    (hs : ESub (s.grp.particles j) ∧ j.val ∉ s.events) :
    ESub ((l.foldl (processSlot g vs) s).grp.particles j) ∧
      j.val ∉ (l.foldl (processSlot g vs) s).events :=
  foldl_pres (processSlot g vs)
    (fun t => ESub (t.grp.particles j) ∧ j.val ∉ t.events) l s
    (fun i _ t ht => processSlot_keep_noevent g vs j i t ht) hs

theorem on_tick_group_noevent (g : Vector) (vs : ℕ → Vector) (j : Fin MAX_PARTICLES_COLOR)
    (s : TickState) (hs : ESub (s.grp.particles j) ∧ j.val ∉ s.events) :
    ESub ((on_tick_group g vs s).grp.particles j) ∧
      j.val ∉ (on_tick_group g vs s).events := by
  rw [on_tick_group_eq_fold]
  exact tick_fold_noevent g vs j (List.range MAX_PARTICLES_COLOR) s hs

theorem group_ticks_succ (g : Vector) (vs : ℕ → Vector) (n : ℕ) (s : TickState) :
    group_ticks g vs (n + 1) s = group_ticks g vs n (on_tick_group g vs s) :=
  Function.iterate_succ_apply (on_tick_group g vs) n s

theorem group_ticks_zero (g : Vector) (vs : ℕ → Vector) (s : TickState) :
    group_ticks g vs 0 s = s := rfl

theorem group_ticks_noevent (g : Vector) (vs : ℕ → Vector) (j : Fin MAX_PARTICLES_COLOR)
    (n : ℕ) :
    ∀ (s : TickState), ESub (s.grp.particles j) → j.val ∉ s.events →
      ESub ((group_ticks g vs n s).grp.particles j) ∧
        j.val ∉ (group_ticks g vs n s).events := by
  induction n with
  | zero => exact fun _ h1 h2 => ⟨h1, h2⟩
  | succ n ih =>
    intro s h1 h2
    rw [group_ticks_succ]
    have h := on_tick_group_noevent g vs j s ⟨h1, h2⟩
    exact ih _ h.1 h.2

/-! ### One pass through a slot: precondition before its iteration, postcondition after -/

theorem processSlot_once_self (g : Vector) (vs : ℕ → Vector) (j : Fin MAX_PARTICLES_COLOR)
    (A B : Particle → Prop)
    (hBnew : ∀ pos vel, B (Particle.new true pos vel))
    (hstep : ∀ p, A p → B (stepP g p))
    (hlatchB : ∀ p, B p → B ({ p with exploded := true }))
    (t : TickState) (hA : A (t.grp.particles j)) :
    B ((processSlot g vs t j.val).grp.particles j) := by
  unfold processSlot
  rw [dif_pos j.isLt,
    show (⟨j.val, j.isLt⟩ : Fin MAX_PARTICLES_COLOR) = j from rfl]
  refine processSlotB_pred vs B hBnew j j (fun _ => hlatchB) _ ?_
  rw [integrateSlot_particles_self]
  exact hstep _ hA

/-- Three-phase pass over one tick of a group: a property `A` of the particle
in slot `j` that survives other slots' spawns turns into `B` when slot `j` is
processed and `B` then persists to the end of the tick. -/
theorem on_tick_group_once (g : Vector) (vs : ℕ → Vector) (j : Fin MAX_PARTICLES_COLOR)
    (A B : Particle → Prop)
    (hAnew : ∀ pos vel, A (Particle.new true pos vel))
    (hBnew : ∀ pos vel, B (Particle.new true pos vel))
    (hstep : ∀ p, A p → B (stepP g p))
    (hlatchB : ∀ p, B p → B ({ p with exploded := true }))
    (s : TickState) (hA : A (s.grp.particles j)) :
    B ((on_tick_group g vs s).grp.particles j) := by
  rw [on_tick_group_eq_fold, range_split MAX_PARTICLES_COLOR j.val j.isLt,
    List.foldl_append, List.foldl_cons]
  refine foldl_pres (processSlot g vs) (fun t => B (t.grp.particles j)) _ _
    (fun i hi t ht => ?_) ?_
  · have hne : i ≠ j.val := by
      rcases List.mem_map.mp hi with ⟨x, -, rfl⟩
      omega
    exact processSlot_pred_ne g vs B hBnew j i hne t ht
  · refine processSlot_once_self g vs j A B hBnew hstep hlatchB _ ?_
    refine foldl_pres (processSlot g vs) (fun t => A (t.grp.particles j)) _ _
      (fun i hi t ht => ?_) hA
    have hne : i ≠ j.val := by
      have := List.mem_range.mp hi
      omega
    exact processSlot_pred_ne g vs A hAnew j i hne t ht

/-! ### Cursor arithmetic over spawn sequences -/

theorem create_seq_nil (pg : ParticleGroup) : create_seq pg [] = pg := rfl

theorem create_seq_cons (pg : ParticleGroup) (c : Bool × Vector × Vector)
    (l : List (Bool × Vector × Vector)) :
    create_seq pg (c :: l) = create_seq (create_particle pg c.1 c.2.1 c.2.2) l := rfl

theorem create_seq_add_at (l : List (Bool × Vector × Vector)) :
    ∀ pg : ParticleGroup, pg.add_at < MAX_PARTICLES_COLOR →
      (create_seq pg l).add_at = (pg.add_at + l.length) % MAX_PARTICLES_COLOR := by
  induction l with
  | nil =>
    intro pg h
    rw [create_seq_nil, List.length_nil, Nat.add_zero, Nat.mod_eq_of_lt h]
  | cons c l ih =>
    intro pg h
    rw [create_seq_cons,
      ih _ (create_particle_add_at_lt pg c.1 c.2.1 c.2.2 h),
      create_particle_add_at pg c.1 c.2.1 c.2.2 h, Nat.mod_add_mod, List.length_cons]
    congr 1
    omega

theorem create_seq_frame (l : List (Bool × Vector × Vector)) :
    ∀ pg : ParticleGroup, pg.add_at < MAX_PARTICLES_COLOR →
      ∀ j : Fin MAX_PARTICLES_COLOR,
        (∀ k, k < l.length → (pg.add_at + k) % MAX_PARTICLES_COLOR ≠ j.val) →
        (create_seq pg l).particles j = pg.particles j ∧
          (create_seq pg l).pos j = pg.pos j := by
  induction l with
  | nil =>
    intro pg _ j _
    exact ⟨rfl, rfl⟩
  | cons c l ih =>
    intro pg h j hk
    have h0 : pg.add_at ≠ j.val := by
      have := hk 0 (by simp)
      rwa [Nat.add_zero, Nat.mod_eq_of_lt h] at this
    have hfr := create_particle_frame pg c.1 c.2.1 c.2.2 j (fun he => h0 he.symm)
    have hrest := ih (create_particle pg c.1 c.2.1 c.2.2)
      (create_particle_add_at_lt pg c.1 c.2.1 c.2.2 h) j ?_
    · rw [create_seq_cons]
      exact ⟨hrest.1.trans hfr.1, hrest.2.trans hfr.2⟩
    · intro k hklt
      rw [create_particle_add_at pg c.1 c.2.1 c.2.2 h, Nat.mod_add_mod]
      have : pg.add_at + 1 + k = pg.add_at + (k + 1) := by omega
      rw [this]
      exact hk (k + 1) (by simp only [List.length_cons]; omega)

theorem create_seq_concat (pg : ParticleGroup) (l1 : List (Bool × Vector × Vector))
    (c : Bool × Vector × Vector) :
    create_seq pg (l1 ++ [c]) = create_particle (create_seq pg l1) c.1 c.2.1 c.2.2 := by
  unfold create_seq
  rw [List.foldl_append]
  rfl

/-! ### Claim C4 -/

/-- C4: `create_particle` unconditionally installs the freshly constructed
particle (given flag, position, velocity, zero acceleration, alive, not
exploded) at the write cursor, mirrors the position into the coordinate
array, advances the cursor by one modulo N = 1000, and touches no other
slot; consequently, from a group whose cursor is at 0, the 1001-st spawn of
any specification sequence lands back in slot 0, overwriting the first —
with no aliveness check of the previous occupant anywhere. -/
theorem claim_C4_create_spec_and_wraparound :
    (∀ (pg : ParticleGroup) (b : Bool) (pos vel : Vector)
      (h : pg.add_at < MAX_PARTICLES_COLOR),
      (create_particle pg b pos vel).particles ⟨pg.add_at, h⟩ =
        { pos := pos, vel := vel, acc := Vector.zero
          dont_delete := true, exploded := false, subparticle := b } ∧
      (create_particle pg b pos vel).pos ⟨pg.add_at, h⟩ = (pos.x, pos.y) ∧
      (create_particle pg b pos vel).add_at = (pg.add_at + 1) % MAX_PARTICLES_COLOR ∧
      (∀ j : Fin MAX_PARTICLES_COLOR, j.val ≠ pg.add_at →
        (create_particle pg b pos vel).particles j = pg.particles j ∧
        (create_particle pg b pos vel).pos j = pg.pos j)) ∧
    (∀ (pg : ParticleGroup), pg.add_at = 0 →
      ∀ f : ℕ → Bool × Vector × Vector,
        (create_seq pg ((List.range (MAX_PARTICLES_COLOR + 1)).map f)).particles idx0 =
          Particle.new (f MAX_PARTICLES_COLOR).1 (f MAX_PARTICLES_COLOR).2.1
            (f MAX_PARTICLES_COLOR).2.2) := by
  constructor
  · intro pg b pos vel h
    refine ⟨(create_particle_target pg b pos vel h).1,
      (create_particle_target pg b pos vel h).2,
      create_particle_add_at pg b pos vel h,
      fun j hj => create_particle_frame pg b pos vel j hj⟩
  · intro pg hpg f
    have hlt : pg.add_at < MAX_PARTICLES_COLOR := by
      rw [hpg]
      exact MAX_pos
    have hsplit : (List.range (MAX_PARTICLES_COLOR + 1)).map f =
        (List.range MAX_PARTICLES_COLOR).map f ++ [f MAX_PARTICLES_COLOR] := by
      rw [List.range_succ, List.map_append, List.map_singleton]
    have hcur : (create_seq pg ((List.range MAX_PARTICLES_COLOR).map f)).add_at = 0 := by
      rw [create_seq_add_at _ pg hlt, hpg, List.length_map, List.length_range,
        Nat.zero_add, Nat.mod_self]
    have hfold : create_seq pg ((List.range (MAX_PARTICLES_COLOR + 1)).map f) =
        create_particle (create_seq pg ((List.range MAX_PARTICLES_COLOR).map f))
          (f MAX_PARTICLES_COLOR).1 (f MAX_PARTICLES_COLOR).2.1
          (f MAX_PARTICLES_COLOR).2.2 := by
      rw [hsplit]
      exact create_seq_concat pg ((List.range MAX_PARTICLES_COLOR).map f)
        (f MAX_PARTICLES_COLOR)
    rw [hfold]
    exact (create_particle_target_at
      (create_seq pg ((List.range MAX_PARTICLES_COLOR).map f))
      (f MAX_PARTICLES_COLOR).1 (f MAX_PARTICLES_COLOR).2.1 (f MAX_PARTICLES_COLOR).2.2
      idx0 (by rw [hcur]; rfl)).1

/-- Witness for C4: the target-write clause applied to a fresh group, and the
wraparound clause applied to a constant specification stream. -/
theorem claim_C4_create_spec_and_wraparound_witness :
    ((ParticleGroup.new ColorTag.red).add_at < MAX_PARTICLES_COLOR ∧
      (create_particle (ParticleGroup.new ColorTag.red) false ⟨1, 2⟩ ⟨3, 4⟩).add_at =
        ((ParticleGroup.new ColorTag.red).add_at + 1) % MAX_PARTICLES_COLOR) ∧
    ((ParticleGroup.new ColorTag.red).add_at = 0 ∧
      (create_seq (ParticleGroup.new ColorTag.red)
          ((List.range (MAX_PARTICLES_COLOR + 1)).map
            (fun _ => (false, (⟨7, 8⟩ : Vector), (⟨0, 0⟩ : Vector))))).particles idx0 =
        Particle.new false ⟨7, 8⟩ ⟨0, 0⟩) := by
  have h0 : (ParticleGroup.new ColorTag.red).add_at = 0 := rfl
  have hlt : (ParticleGroup.new ColorTag.red).add_at < MAX_PARTICLES_COLOR := by
    rw [h0]
    exact MAX_pos
  refine ⟨⟨hlt, ?_⟩, h0, ?_⟩
  · exact (claim_C4_create_spec_and_wraparound.1
      (ParticleGroup.new ColorTag.red) false ⟨1, 2⟩ ⟨3, 4⟩ hlt).2.2.1
  · exact claim_C4_create_spec_and_wraparound.2 (ParticleGroup.new ColorTag.red) h0
      (fun _ => (false, ⟨7, 8⟩, ⟨0, 0⟩))

/-! ### Claim C9 -/

theorem spawnStep_add_at_lt (vs : ℕ → Vector) (i : Fin MAX_PARTICLES_COLOR)
    (t : TickState) (k : ℕ) (h : t.grp.add_at < MAX_PARTICLES_COLOR) :
    (spawnStep vs i t k).grp.add_at < MAX_PARTICLES_COLOR := by
  rw [spawnStep_grp]
  exact create_particle_add_at_lt _ _ _ _ h

theorem processSlot_add_at_lt (g : Vector) (vs : ℕ → Vector) (t : TickState) (i : ℕ)
    (h : t.grp.add_at < MAX_PARTICLES_COLOR) :
    (processSlot g vs t i).grp.add_at < MAX_PARTICLES_COLOR := by
  unfold processSlot
  split
  · unfold processSlotB
    split
    · exact h
    · split
      · rw [latchExploded_add_at]
        exact foldl_pres (spawnStep vs _)
          (fun t => t.grp.add_at < MAX_PARTICLES_COLOR) (List.range 19) _
          (fun k _ t ht => spawnStep_add_at_lt vs _ t k ht) h
      · exact h
  · exact h

theorem on_tick_group_add_at_lt (g : Vector) (vs : ℕ → Vector) (s : TickState)
    (h : s.grp.add_at < MAX_PARTICLES_COLOR) :
    (on_tick_group g vs s).grp.add_at < MAX_PARTICLES_COLOR := by
  rw [on_tick_group_eq_fold]
  exact foldl_pres (processSlot g vs) (fun t => t.grp.add_at < MAX_PARTICLES_COLOR)
    (List.range MAX_PARTICLES_COLOR) s (fun i _ t ht => processSlot_add_at_lt g vs t i ht) h

theorem runOp_tick_eq (g : Vector) (s : TickState) (vs : ℕ → Vector) :
    runOp g s (Op.tick vs) = on_tick_group g vs s := rfl

theorem runOp_spawn_eq (g : Vector) (s : TickState) (b : Bool) (p v : Vector) :
    runOp g s (Op.spawn b p v) =
      { s with grp := create_particle s.grp b p v
               spawnLog := s.spawnLog ++ [s.grp.add_at] } := rfl

theorem runOp_add_at_lt (g : Vector) (s : TickState) (op : Op)
    (h : s.grp.add_at < MAX_PARTICLES_COLOR) :
    (runOp g s op).grp.add_at < MAX_PARTICLES_COLOR := by
  cases op with
  | tick vs =>
    rw [runOp_tick_eq]
    exact on_tick_group_add_at_lt g vs s h
  | spawn b p v =>
    rw [runOp_spawn_eq]
    exact create_particle_add_at_lt _ _ _ _ h

/-- C9: totality of the core.  The write cursor starts inside `[0, N)` on a
fresh group and stays inside `[0, N)` across `create_particle`, across a full
tick of a group, and across any sequence of interleaved ticks and launches;
hence every array access in the embedding takes a well-formed `Fin N` index
built from the cursor, and the out-of-range fallback branch of the model
(the only conceivable failure, a panic in the Rust source) is never taken.
Slot-loop indices are in range by construction (`for i in 0..N`). -/
theorem claim_C9_cursor_invariant_totality :
    (∀ c : ColorTag, (ParticleGroup.new c).add_at < MAX_PARTICLES_COLOR) ∧
    (∀ (pg : ParticleGroup) (b : Bool) (pos vel : Vector),
      pg.add_at < MAX_PARTICLES_COLOR →
      (create_particle pg b pos vel).add_at < MAX_PARTICLES_COLOR) ∧
    (∀ (g : Vector) (vs : ℕ → Vector) (s : TickState),
      s.grp.add_at < MAX_PARTICLES_COLOR →
      (on_tick_group g vs s).grp.add_at < MAX_PARTICLES_COLOR) ∧
    (∀ (g : Vector) (s : TickState) (l : List Op),
      s.grp.add_at < MAX_PARTICLES_COLOR →
      (runOps g s l).grp.add_at < MAX_PARTICLES_COLOR) := by
  refine ⟨fun _ => MAX_pos, create_particle_add_at_lt, on_tick_group_add_at_lt, ?_⟩
  intro g s l h
  exact foldl_pres (runOp g) (fun t => t.grp.add_at < MAX_PARTICLES_COLOR) l s
    (fun op _ t ht => runOp_add_at_lt g t op ht) h

/-- Witness for C9: the invariant instantiated on a fresh blue group run
through a launch followed by a tick. -/
theorem claim_C9_cursor_invariant_totality_witness :
    (freshTickState ColorTag.blue).grp.add_at < MAX_PARTICLES_COLOR ∧
    (runOps gravity0 (freshTickState ColorTag.blue)
      [Op.spawn false ⟨0, -50⟩ ⟨0, 1.2⟩, Op.tick vs0]).grp.add_at <
        MAX_PARTICLES_COLOR := by
  have h : (freshTickState ColorTag.blue).grp.add_at < MAX_PARTICLES_COLOR := MAX_pos
  exact ⟨h, claim_C9_cursor_invariant_totality.2.2.2 gravity0 (freshTickState ColorTag.blue)
    [Op.spawn false ⟨0, -50⟩ ⟨0, 1.2⟩, Op.tick vs0] h⟩

/-! ### Claim C8 -/

theorem spawnStep_LInv (vs : ℕ → Vector) (i : Fin MAX_PARTICLES_COLOR) (t : TickState)
    (k : ℕ) (h : LInv t) : LInv (spawnStep vs i t k) := by
  obtain ⟨n, h1, h2⟩ := h
  have ha : t.grp.add_at < MAX_PARTICLES_COLOR := by
    rw [h1]
    exact Nat.mod_lt _ MAX_pos
  refine ⟨n + 1, ?_, ?_⟩
  · calc (spawnStep vs i t k).grp.add_at
        = (t.grp.add_at + 1) % MAX_PARTICLES_COLOR := by
          rw [spawnStep_grp]
          exact create_particle_add_at _ _ _ _ ha
      _ = (n % MAX_PARTICLES_COLOR + 1) % MAX_PARTICLES_COLOR := by rw [h1]
      _ = (n + 1) % MAX_PARTICLES_COLOR := by rw [Nat.mod_add_mod]
  · rw [spawnStep_spawnLog, h2, h1, List.range_succ, List.map_append]
    rfl

theorem userSpawn_LInv (g : Vector) (s : TickState) (b : Bool) (p v : Vector)
    (h : LInv s) : LInv (runOp g s (Op.spawn b p v)) := by
  obtain ⟨n, h1, h2⟩ := h
  have ha : s.grp.add_at < MAX_PARTICLES_COLOR := by
    rw [h1]
    exact Nat.mod_lt _ MAX_pos
  rw [runOp_spawn_eq]
  refine ⟨n + 1, ?_, ?_⟩
  · calc (create_particle s.grp b p v).add_at
        = (s.grp.add_at + 1) % MAX_PARTICLES_COLOR :=
          create_particle_add_at _ _ _ _ ha
      _ = (n % MAX_PARTICLES_COLOR + 1) % MAX_PARTICLES_COLOR := by rw [h1]
      _ = (n + 1) % MAX_PARTICLES_COLOR := by rw [Nat.mod_add_mod]
  · show s.spawnLog ++ [s.grp.add_at] = _
    rw [h2, h1, List.range_succ, List.map_append]
    rfl

theorem latchExploded_LInv (fi : Fin MAX_PARTICLES_COLOR) (s : TickState)
    (h : LInv s) : LInv (latchExploded fi s) := by
  obtain ⟨n, h1, h2⟩ := h
  exact ⟨n, h1, h2⟩

theorem spawnFold_LInv (vs : ℕ → Vector) (fi : Fin MAX_PARTICLES_COLOR) (l : List ℕ)
    (s : TickState) (h : LInv s) : LInv (l.foldl (spawnStep vs fi) s) :=
  foldl_pres (spawnStep vs fi) LInv l s (fun k _ t ht => spawnStep_LInv vs fi t k ht) h

theorem processSlot_LInv (g : Vector) (vs : ℕ → Vector) (t : TickState) (i : ℕ)
    (h : LInv t) : LInv (processSlot g vs t i) := by
  obtain ⟨n, h1, h2⟩ := h
  unfold processSlot
  split
  · unfold processSlotB
    split
    · exact ⟨n, h1, h2⟩
    · split
      · exact latchExploded_LInv _ _ (spawnFold_LInv vs _ (List.range 19) _ ⟨n, h1, h2⟩)
      · exact ⟨n, h1, h2⟩
  · exact ⟨n, h1, h2⟩

theorem on_tick_group_LInv (g : Vector) (vs : ℕ → Vector) (s : TickState)
    (h : LInv s) : LInv (on_tick_group g vs s) := by
  rw [on_tick_group_eq_fold]
  exact foldl_pres (processSlot g vs) LInv (List.range MAX_PARTICLES_COLOR) s
    (fun i _ t ht => processSlot_LInv g vs t i ht) h

theorem runOps_LInv (g : Vector) (s : TickState) (l : List Op) (h : LInv s) :
    LInv (runOps g s l) := by
  unfold runOps
  refine foldl_pres (runOp g) LInv l s (fun op _ t ht => ?_) h
  cases op with
  | tick vs =>
    rw [runOp_tick_eq]
    exact on_tick_group_LInv g vs t ht
  | spawn b p v => exact userSpawn_LInv g t b p v ht

theorem freshTickState_LInv (c : ColorTag) : LInv (freshTickState c) :=
  ⟨0, by rw [Nat.zero_mod]; rfl, rfl⟩

/-- C8 counterexample: the claim fails on the very first spawn of a fresh
group.  `ParticleGroup::new` fills every slot with an alive
(`dont_delete = true`) placeholder main particle at `(-999.9, -999.9)`, so
the first `create_particle` — a group lifetime total of one spawn, well under
N — already overwrites a slot whose particle has `alive = true`. -/
theorem claim_C8_counterexample :
    ((ParticleGroup.new ColorTag.blue).particles idx0).dont_delete = true ∧
    (create_particle (ParticleGroup.new ColorTag.blue) false ⟨1, 2⟩ ⟨0, 1⟩).particles idx0 =
      Particle.new false ⟨1, 2⟩ ⟨0, 1⟩ ∧
    Particle.new false ⟨1, 2⟩ ⟨0, 1⟩ ≠
      (ParticleGroup.new ColorTag.blue).particles idx0 := by
  refine ⟨rfl, ?_, ?_⟩
  · exact (create_particle_target_at (ParticleGroup.new ColorTag.blue) false ⟨1, 2⟩ ⟨0, 1⟩
      idx0 rfl).1
  · intro h
    have hx := congrArg (fun q => q.pos.x) h
    norm_num [Particle.new, ParticleGroup.new] at hx

/-- C8 (amended): what is true nearby.  Every `create_particle` target is
recorded in the ghost spawn log; starting from a fresh group, after any
interleaving of ticks and launches the logged targets are
`0 % N, 1 % N, 2 % N, …` in order, so as long as the group has received at
most `N = 1000` spawns in total (launches and explosion spawns together) the
targets are pairwise distinct — no spawn overwrites a slot that an earlier
spawn wrote.  The claim as frozen is false only because the "empty" slots of
a fresh pool already hold alive placeholder particles (see the
counterexample): spawning over those placeholders is unavoidable. -/
theorem claim_C8_spawn_targets_distinct (g : Vector) (c : ColorTag) (l : List Op)
    (hlen : (runOps g (freshTickState c) l).spawnLog.length ≤ MAX_PARTICLES_COLOR) :
    (runOps g (freshTickState c) l).spawnLog.Nodup := by
  obtain ⟨n, -, h2⟩ := runOps_LInv g (freshTickState c) l (freshTickState_LInv c)
  have hn : n ≤ MAX_PARTICLES_COLOR := by
    rw [h2, List.length_map, List.length_range] at hlen
    exact hlen
  rw [h2]
  have hid : (List.range n).map (· % MAX_PARTICLES_COLOR) = List.range n := by
    have : ∀ a ∈ List.range n, a % MAX_PARTICLES_COLOR = a := fun a ha =>
      Nat.mod_eq_of_lt (lt_of_lt_of_le (List.mem_range.mp ha) hn)
    calc (List.range n).map (· % MAX_PARTICLES_COLOR)
        = (List.range n).map id := List.map_congr_left this
      _ = List.range n := List.map_id _
  rw [hid]
  exact List.nodup_range n

/-- Witness for the amended C8 theorem: one launch into a fresh group. -/
theorem claim_C8_spawn_targets_distinct_witness :
    (runOps gravity0 (freshTickState ColorTag.green)
        [Op.spawn false ⟨0, -50⟩ ⟨0, 1.2⟩]).spawnLog.length ≤ MAX_PARTICLES_COLOR ∧
    (runOps gravity0 (freshTickState ColorTag.green)
        [Op.spawn false ⟨0, -50⟩ ⟨0, 1.2⟩]).spawnLog.Nodup := by
  have hlen : (runOps gravity0 (freshTickState ColorTag.green)
      [Op.spawn false ⟨0, -50⟩ ⟨0, 1.2⟩]).spawnLog.length ≤ MAX_PARTICLES_COLOR := by
    show ([] ++ [0] : List ℕ).length ≤ MAX_PARTICLES_COLOR
    norm_num [MAX_PARTICLES_COLOR]
  exact ⟨hlen, claim_C8_spawn_targets_distinct gravity0 ColorTag.green
    [Op.spawn false ⟨0, -50⟩ ⟨0, 1.2⟩] hlen⟩

/-! ### Claim C5 -/

theorem latchExploded_pos (fi : Fin MAX_PARTICLES_COLOR) (s : TickState) :
    (latchExploded fi s).grp.pos = s.grp.pos := rfl

theorem integrateSlot_pos_self (g : Vector) (s : TickState) (fi : Fin MAX_PARTICLES_COLOR) :
    (integrateSlot g s fi).grp.pos fi =
      ((stepP g (s.grp.particles fi)).pos.x, (stepP g (s.grp.particles fi)).pos.y) := by
  unfold integrateSlot
  simp [Function.update_same]

theorem integrateSlot_pos_ne (g : Vector) (s : TickState) (fi j : Fin MAX_PARTICLES_COLOR)
    (hj : j ≠ fi) : (integrateSlot g s fi).grp.pos j = s.grp.pos j := by
  unfold integrateSlot
  simp [Function.update_noteq hj]

theorem create_particle_gslotInv (pg : ParticleGroup) (b : Bool) (pos vel : Vector)
    (j : Fin MAX_PARTICLES_COLOR) (h : gslotInv pg j) :
    gslotInv (create_particle pg b pos vel) j := by
  rcases create_particle_pair pg b pos vel j with ⟨hp, hq⟩ | ⟨hp, hq⟩
  · refine ⟨fun hd => ?_, fun hd => ?_⟩
    · rw [hp] at hd
      rw [hq, hp]
      exact h.1 hd
    · rw [hp] at hd
      rw [hq]
      exact h.2 hd
  · refine ⟨fun _ => ?_, fun hd => ?_⟩
    · rw [hq, hp]
      rfl
    · rw [hp] at hd
      cases hd

theorem spawnFold_gslotInv (vs : ℕ → Vector) (fi : Fin MAX_PARTICLES_COLOR) (l : List ℕ)
    (j : Fin MAX_PARTICLES_COLOR) (s : TickState) (h : gslotInv s.grp j) :
    gslotInv ((l.foldl (spawnStep vs fi) s)).grp j :=
  foldl_pres (spawnStep vs fi) (fun t => gslotInv t.grp j) l s
    (fun k _ t ht => by
      show gslotInv (spawnStep vs fi t k).grp j
      rw [spawnStep_grp]
      exact create_particle_gslotInv _ _ _ _ j ht) h

theorem latch_gslotInv (fi j : Fin MAX_PARTICLES_COLOR) (s : TickState)
    (h : gslotInv s.grp j) : gslotInv (latchExploded fi s).grp j := by
  by_cases hj : j = fi
  · subst hj
    constructor
    · intro hd
      rw [latchExploded_particles_self] at hd ⊢
      rw [latchExploded_pos]
      exact h.1 hd
    · intro hd
      rw [latchExploded_particles_self] at hd
      rw [latchExploded_pos]
      exact h.2 hd
  · constructor
    · intro hd
      rw [latchExploded_particles_ne _ _ _ hj] at hd ⊢
      rw [latchExploded_pos]
      exact h.1 hd
    · intro hd
      rw [latchExploded_particles_ne _ _ _ hj] at hd
      rw [latchExploded_pos]
      exact h.2 hd

theorem processSlotB_establish (vs : ℕ → Vector) (j : Fin MAX_PARTICLES_COLOR)
    (s : TickState)
    (hsync : (s.grp.particles j).dont_delete = true →
      s.grp.pos j = ((s.grp.particles j).pos.x, (s.grp.particles j).pos.y)) :
    gslotInv (processSlotB vs s j).grp j := by
  unfold processSlotB
  split
  · next hd =>
    exact ⟨fun _ => hsync hd, fun hf => by rw [hd] at hf; cases hf⟩
  · next hd =>
    have hdd : (s.grp.particles j).dont_delete = false := by
      revert hd
      cases (s.grp.particles j).dont_delete <;> simp
    split
    · apply latch_gslotInv
      apply spawnFold_gslotInv
      refine ⟨fun ha => ?_, fun _ => ?_⟩
      · rw [show ({ s with
            grp := { s.grp with pos := Function.update s.grp.pos j (9999.9, 9999.9) }
            events := s.events ++ [j.val] } : TickState).grp.particles j =
              s.grp.particles j from rfl] at ha
        rw [hdd] at ha
        cases ha
      · show Function.update s.grp.pos j (9999.9, 9999.9) j = (9999.9, 9999.9)
        rw [Function.update_same]
    · refine ⟨fun ha => ?_, fun _ => ?_⟩
      · rw [show ({ s with
            grp := { s.grp with pos := Function.update s.grp.pos j (9999.9, 9999.9) }
            } : TickState).grp.particles j = s.grp.particles j from rfl] at ha
        rw [hdd] at ha
        cases ha
      · show Function.update s.grp.pos j (9999.9, 9999.9) j = (9999.9, 9999.9)
        rw [Function.update_same]

theorem processSlot_establish (g : Vector) (vs : ℕ → Vector) (j : Fin MAX_PARTICLES_COLOR)
    (t : TickState) : gslotInv (processSlot g vs t j.val).grp j := by
  unfold processSlot
  rw [dif_pos j.isLt, show (⟨j.val, j.isLt⟩ : Fin MAX_PARTICLES_COLOR) = j from rfl]
  apply processSlotB_establish
  intro _
  rw [integrateSlot_particles_self, integrateSlot_pos_self]

theorem processSlotB_gslotInv_ne (vs : ℕ → Vector) (fi j : Fin MAX_PARTICLES_COLOR)
    (hj : j ≠ fi) (s : TickState) (h : gslotInv s.grp j) :
    gslotInv (processSlotB vs s fi).grp j := by
  unfold processSlotB
  split
  · exact h
  · have hbase : gslotInv ({ s.grp with
        pos := Function.update s.grp.pos fi (9999.9, 9999.9) } : ParticleGroup) j := by
      refine ⟨fun hd => ?_, fun hd => ?_⟩
      · show Function.update s.grp.pos fi (9999.9, 9999.9) j = _
        rw [Function.update_noteq hj]
        exact h.1 hd
      · show Function.update s.grp.pos fi (9999.9, 9999.9) j = _
        rw [Function.update_noteq hj]
        exact h.2 hd
    split
    · apply latch_gslotInv
      apply spawnFold_gslotInv
      exact hbase
    · exact hbase

theorem processSlot_gslotInv_ne (g : Vector) (vs : ℕ → Vector)
    (j : Fin MAX_PARTICLES_COLOR) (i : ℕ) (hne : i ≠ j.val) (t : TickState)
    (h : gslotInv t.grp j) : gslotInv (processSlot g vs t i).grp j := by
  unfold processSlot
  split
  · next hlt =>
    have hj : j ≠ (⟨i, hlt⟩ : Fin MAX_PARTICLES_COLOR) := by
      intro he
      exact hne (by rw [he])
    refine processSlotB_gslotInv_ne vs _ j hj _ ?_
    constructor
    · intro hd
      rw [integrateSlot_particles_ne _ _ _ _ hj] at hd ⊢
      rw [integrateSlot_pos_ne _ _ _ _ hj]
      exact h.1 hd
    · intro hd
      rw [integrateSlot_particles_ne _ _ _ _ hj] at hd
      rw [integrateSlot_pos_ne _ _ _ _ hj]
      exact h.2 hd
  · exact h

theorem on_tick_group_gslotInv (g : Vector) (vs : ℕ → Vector)
    (j : Fin MAX_PARTICLES_COLOR) (s : TickState) :
    gslotInv (on_tick_group g vs s).grp j := by
  rw [on_tick_group_eq_fold, range_split MAX_PARTICLES_COLOR j.val j.isLt,
    List.foldl_append, List.foldl_cons]
  refine foldl_pres (processSlot g vs) (fun t => gslotInv t.grp j) _ _
    (fun i hi t ht => ?_) ?_
  · have hne : i ≠ j.val := by
      rcases List.mem_map.mp hi with ⟨x, -, rfl⟩
      omega
    exact processSlot_gslotInv_ne g vs j i hne t ht
  · exact processSlot_establish g vs j _

/-- C5 counterexample: the claim fails after a spawn on a not-yet-ticked
group.  After one launch into a fresh group, slot 1 still holds the alive
(`dont_delete = true`) placeholder particle at `(-999.9, -999.9)` while its
coordinate entry is the initial `(-9999.9, -9999.9)` — an alive particle
whose coordinate entry does not equal its position. -/
theorem claim_C5_counterexample :
    ((create_particle (ParticleGroup.new ColorTag.blue) false ⟨0, 0⟩
        ⟨0, 1⟩).particles idx1).dont_delete = true ∧
    (create_particle (ParticleGroup.new ColorTag.blue) false ⟨0, 0⟩ ⟨0, 1⟩).pos idx1 ≠
      (((create_particle (ParticleGroup.new ColorTag.blue) false ⟨0, 0⟩
          ⟨0, 1⟩).particles idx1).pos.x,
       ((create_particle (ParticleGroup.new ColorTag.blue) false ⟨0, 0⟩
          ⟨0, 1⟩).particles idx1).pos.y) := by
  have hfr := create_particle_frame (ParticleGroup.new ColorTag.blue) false ⟨0, 0⟩ ⟨0, 1⟩
    idx1 (by norm_num [idx1, ParticleGroup.new])
  rw [hfr.1, hfr.2]
  refine ⟨rfl, fun h => ?_⟩
  have hx := congrArg Prod.fst h
  norm_num [ParticleGroup.new, Particle.new] at hx

/-- C5 (amended): the coordinate-sync invariant holds for every slot of every
group after every tick (each slot's coordinate entry is refreshed or set to
the sentinel when the slot is processed, and any spawn during the tick writes
particle and coordinate together), and every spawn preserves it; it does not
hold between construction and the first tick, where alive placeholder
particles sit next to `(-9999.9, -9999.9)` coordinate entries (see the
counterexample). -/
theorem claim_C5_coord_sync_invariant :
    (∀ (g : Vector) (vs : ℕ → Vector) (s : TickState) (j : Fin MAX_PARTICLES_COLOR),
      gslotInv (on_tick_group g vs s).grp j) ∧
    (∀ (pg : ParticleGroup) (b : Bool) (pos vel : Vector) (j : Fin MAX_PARTICLES_COLOR),
      gslotInv pg j → gslotInv (create_particle pg b pos vel) j) :=
  ⟨fun g vs s j => on_tick_group_gslotInv g vs j s,
   fun pg b pos vel j h => create_particle_gslotInv pg b pos vel j h⟩

/-- Witness for the amended C5: the invariant after one tick of a fresh
group, and preservation through a launch from a synchronised group. -/
theorem claim_C5_coord_sync_invariant_witness :
    gslotInv (on_tick_group gravity0 vs0 (freshTickState ColorTag.blue)).grp idx0 ∧
    (gslotInv ({ ParticleGroup.new ColorTag.blue with
        pos := fun _ => (-999.9, -999.9) } : ParticleGroup) idx0 ∧
      gslotInv (create_particle ({ ParticleGroup.new ColorTag.blue with
        pos := fun _ => (-999.9, -999.9) } : ParticleGroup) false ⟨3, 4⟩ ⟨0, 0⟩) idx0) := by
  have hsync : gslotInv ({ ParticleGroup.new ColorTag.blue with
      pos := fun _ => (-999.9, -999.9) } : ParticleGroup) idx0 := by
    refine ⟨fun _ => rfl, fun hf => ?_⟩
    cases hf
  exact ⟨claim_C5_coord_sync_invariant.1 gravity0 vs0 (freshTickState ColorTag.blue) idx0,
    hsync, claim_C5_coord_sync_invariant.2 _ false ⟨3, 4⟩ ⟨0, 0⟩ idx0 hsync⟩

/-! ### A tick pass over slots that all survive integration -/

theorem integrateSlot_ridx (g : Vector) (s : TickState) (fi : Fin MAX_PARTICLES_COLOR) :
    (integrateSlot g s fi).ridx = s.ridx := rfl

theorem integrateSlot_spawnLog (g : Vector) (s : TickState) (fi : Fin MAX_PARTICLES_COLOR) :
    (integrateSlot g s fi).spawnLog = s.spawnLog := rfl

theorem integrateSlot_color (g : Vector) (s : TickState) (fi : Fin MAX_PARTICLES_COLOR) :
    (integrateSlot g s fi).grp.color = s.grp.color := rfl

theorem processSlot_live_eq (g : Vector) (vs : ℕ → Vector) (s : TickState) (i : ℕ)
    (hi : i < MAX_PARTICLES_COLOR)
    (hd : (stepP g (s.grp.particles ⟨i, hi⟩)).dont_delete = true) :
    processSlot g vs s i = integrateSlot g s ⟨i, hi⟩ := by
  rw [processSlot_eq g vs s i hi]
  apply processSlotB_live
  rw [integrateSlot_particles_self]
  exact hd

theorem processSlot_oob (g : Vector) (vs : ℕ → Vector) (s : TickState) (i : ℕ)
    (hi : ¬i < MAX_PARTICLES_COLOR) : processSlot g vs s i = s := by
  unfold processSlot
  rw [dif_neg hi]

/-- Folding the slot body over a duplicate-free list of indices whose
occupants all survive integration is a pure per-slot map: every listed slot
is integrated and its coordinate refreshed, nothing else changes — no
sentinel, no events, no spawns, no cursor or draw movement. -/
theorem fold_no_explosion (g : Vector) (vs : ℕ → Vector) :
    ∀ L : List ℕ, L.Nodup → ∀ s : TickState,
      (∀ j : Fin MAX_PARTICLES_COLOR, j.val ∈ L →
        (stepP g (s.grp.particles j)).dont_delete = true) →
      ((L.foldl (processSlot g vs) s).grp.add_at = s.grp.add_at ∧
       (L.foldl (processSlot g vs) s).grp.color = s.grp.color ∧
       (L.foldl (processSlot g vs) s).ridx = s.ridx ∧
       (L.foldl (processSlot g vs) s).events = s.events ∧
       (L.foldl (processSlot g vs) s).spawnLog = s.spawnLog) ∧
      (∀ j : Fin MAX_PARTICLES_COLOR,
        (j.val ∈ L →
          (L.foldl (processSlot g vs) s).grp.particles j = stepP g (s.grp.particles j) ∧
          (L.foldl (processSlot g vs) s).grp.pos j =
            ((stepP g (s.grp.particles j)).pos.x, (stepP g (s.grp.particles j)).pos.y)) ∧
        (j.val ∉ L →
          (L.foldl (processSlot g vs) s).grp.particles j = s.grp.particles j ∧
          (L.foldl (processSlot g vs) s).grp.pos j = s.grp.pos j)) := by
  intro L
  induction L with
  | nil =>
    intro _ s _
    exact ⟨⟨rfl, rfl, rfl, rfl, rfl⟩,
      fun j => ⟨fun h => absurd h (List.not_mem_nil _), fun _ => ⟨rfl, rfl⟩⟩⟩
  | cons i L ih =>
    intro hnd s hstep
    have hnotin : i ∉ L := (List.nodup_cons.mp hnd).1
    have hnd2 : L.Nodup := (List.nodup_cons.mp hnd).2
    rw [List.foldl_cons]
    by_cases hi : i < MAX_PARTICLES_COLOR
    · have heq : processSlot g vs s i = integrateSlot g s ⟨i, hi⟩ :=
        processSlot_live_eq g vs s i hi (hstep ⟨i, hi⟩ (List.mem_cons_self _ _))
      rw [heq]
      have hstep2 : ∀ j : Fin MAX_PARTICLES_COLOR, j.val ∈ L →
          (stepP g ((integrateSlot g s ⟨i, hi⟩).grp.particles j)).dont_delete = true := by
        intro j hj
        have hjne : j ≠ (⟨i, hi⟩ : Fin MAX_PARTICLES_COLOR) := by
          intro he
          rw [he] at hj
          exact hnotin hj
        rw [integrateSlot_particles_ne _ _ _ _ hjne]
        exact hstep j (List.mem_cons_of_mem _ hj)
      obtain ⟨⟨m1, m2, m3, m4, m5⟩, hslots⟩ := ih hnd2 (integrateSlot g s ⟨i, hi⟩) hstep2
      refine ⟨⟨by rw [m1]; rfl, by rw [m2]; rfl, by rw [m3]; rfl,
        by rw [m4]; rfl, by rw [m5]; rfl⟩, fun j => ⟨?_, ?_⟩⟩
      · intro hj
        rcases List.mem_cons.mp hj with hj1 | hj2
        · have hjeq : j = (⟨i, hi⟩ : Fin MAX_PARTICLES_COLOR) := Fin.ext hj1
          have hnot2 : j.val ∉ L := by
            rw [hj1]
            exact hnotin
          obtain ⟨hp, hq⟩ := (hslots j).2 hnot2
          constructor
          · rw [hp, hjeq]
            exact integrateSlot_particles_self g s ⟨i, hi⟩
          · rw [hq, hjeq]
            exact integrateSlot_pos_self g s ⟨i, hi⟩
        · obtain ⟨hp, hq⟩ := (hslots j).1 hj2
          have hjne : j ≠ (⟨i, hi⟩ : Fin MAX_PARTICLES_COLOR) := by
            intro he
            rw [he] at hj2
            exact hnotin hj2
          constructor
          · rw [hp, integrateSlot_particles_ne _ _ _ _ hjne]
          · rw [hq, integrateSlot_particles_ne _ _ _ _ hjne]
      · intro hj
        have hj2 : j.val ∉ L := fun h => hj (List.mem_cons_of_mem _ h)
        have hjne : j ≠ (⟨i, hi⟩ : Fin MAX_PARTICLES_COLOR) := by
          intro he
          apply hj
          rw [he]
          exact List.mem_cons_self _ _
        obtain ⟨hp, hq⟩ := (hslots j).2 hj2
        exact ⟨hp.trans (integrateSlot_particles_ne _ _ _ _ hjne),
          hq.trans (integrateSlot_pos_ne _ _ _ _ hjne)⟩
    · rw [processSlot_oob g vs s i hi]
      have hstep2 : ∀ j : Fin MAX_PARTICLES_COLOR, j.val ∈ L →
          (stepP g (s.grp.particles j)).dont_delete = true :=
        fun j hj => hstep j (List.mem_cons_of_mem _ hj)
      obtain ⟨hmisc, hslots⟩ := ih hnd2 s hstep2
      refine ⟨hmisc, fun j => ⟨?_, ?_⟩⟩
      · intro hj
        rcases List.mem_cons.mp hj with hj1 | hj2
        · exfalso
          have := j.isLt
          omega
        · exact (hslots j).1 hj2
      · intro hj
        exact (hslots j).2 (fun h => hj (List.mem_cons_of_mem _ h))

theorem on_tick_all_live (g : Vector) (vs : ℕ → Vector) (s : TickState)
    (hstep : ∀ j : Fin MAX_PARTICLES_COLOR,
      (stepP g (s.grp.particles j)).dont_delete = true) :
    ((on_tick_group g vs s).grp.add_at = s.grp.add_at ∧
     (on_tick_group g vs s).grp.color = s.grp.color ∧
     (on_tick_group g vs s).ridx = s.ridx ∧
     (on_tick_group g vs s).events = s.events ∧
     (on_tick_group g vs s).spawnLog = s.spawnLog) ∧
    (∀ j : Fin MAX_PARTICLES_COLOR,
      (on_tick_group g vs s).grp.particles j = stepP g (s.grp.particles j) ∧
      (on_tick_group g vs s).grp.pos j =
        ((stepP g (s.grp.particles j)).pos.x, (stepP g (s.grp.particles j)).pos.y)) := by
  have h := fold_no_explosion g vs (List.range MAX_PARTICLES_COLOR)
    (List.nodup_range MAX_PARTICLES_COLOR) s (fun j _ => hstep j)
  rw [on_tick_group_eq_fold]
  exact ⟨h.1, fun j => (h.2 j).1 (List.mem_range.mpr j.isLt)⟩

/-! ### Claim C7 -/

/-- C7 counterexample: a resting sub-particle speeds up under gravity.
In a pool of sub-particles at rest (velocity zero, no pending acceleration),
one tick gives every particle the velocity `(0, -0.004) * 0.98`, whose
magnitude `0.00392` strictly exceeds the prior magnitude `0`, so sub-particle
speed is not non-increasing tick over tick once gravity is included. -/
theorem claim_C7_counterexample :
    ((mkTickState (Particle.new true ⟨0, 0⟩ ⟨0, 0⟩)).grp.particles idx0).subparticle = true ∧
    ((mkTickState (Particle.new true ⟨0, 0⟩ ⟨0, 0⟩)).grp.particles idx0).acc = Vector.zero ∧
    Vector.normSq ((mkTickState (Particle.new true ⟨0, 0⟩ ⟨0, 0⟩)).grp.particles
      idx0).vel = 0 ∧
    Vector.normSq (((on_tick_group gravity0 vs0
      (mkTickState (Particle.new true ⟨0, 0⟩ ⟨0, 0⟩))).grp.particles idx0).vel) > 0 := by
  have hstep : ∀ j : Fin MAX_PARTICLES_COLOR,
      (stepP gravity0 ((mkTickState (Particle.new true ⟨0, 0⟩ ⟨0, 0⟩)).grp.particles
        j)).dont_delete = true := by
    intro j
    rw [show (mkTickState (Particle.new true ⟨0, 0⟩ ⟨0, 0⟩)).grp.particles j =
      Particle.new true ⟨0, 0⟩ ⟨0, 0⟩ from rfl, stepP_dd_of_sub _ _ rfl]
    rfl
  have h := (on_tick_all_live gravity0 vs0 _ hstep).2 idx0
  refine ⟨rfl, rfl, ?_, ?_⟩
  · show (0 : ℚ) ^ 2 + (0 : ℚ) ^ 2 = 0
    norm_num
  · rw [h.1, show (mkTickState (Particle.new true ⟨0, 0⟩ ⟨0, 0⟩)).grp.particles idx0 =
      Particle.new true ⟨0, 0⟩ ⟨0, 0⟩ from rfl, stepP_sub _ _ rfl]
    show Vector.normSq ((⟨0, 0⟩ + (Vector.zero + gravity0)) * (0.98 : ℚ)) > 0
    simp only [Vector.normSq, Vector.add_def, Vector.mul_def, Vector.zero, gravity0]
    norm_num

/-- C7 (amended): in a pool of alive sub-particles, a sub-particle with no
pending acceleration whose speed is at least the terminal speed
`0.196 = 0.98·0.004/(1−0.98)` does not speed up over a tick
(`‖(v+g)·0.98‖ ≤ ‖v‖`, stated via squared norms); below that terminal speed
gravity can increase the speed (see the counterexample), so sub-particle
speed tends to the downward terminal velocity `(0, −0.196)`, not to zero. -/
theorem claim_C7_sub_speed_terminal (vs : ℕ → Vector) (s : TickState)
    (j : Fin MAX_PARTICLES_COLOR)
    (hall : ∀ k : Fin MAX_PARTICLES_COLOR, (s.grp.particles k).subparticle = true ∧
      (s.grp.particles k).dont_delete = true)
    (hacc : (s.grp.particles j).acc = Vector.zero)
    (hfast : (0.196 : ℚ) ^ 2 ≤ Vector.normSq (s.grp.particles j).vel) :
    Vector.normSq (((on_tick_group gravity0 vs s).grp.particles j).vel) ≤
      Vector.normSq (s.grp.particles j).vel := by
  have hstep : ∀ k : Fin MAX_PARTICLES_COLOR,
      (stepP gravity0 (s.grp.particles k)).dont_delete = true := by
    intro k
    rw [stepP_dd_of_sub _ _ (hall k).1]
    exact (hall k).2
  have h := (on_tick_all_live gravity0 vs s hstep).2 j
  rw [h.1, stepP_sub _ _ (hall j).1, hacc]
  show Vector.normSq (((s.grp.particles j).vel + (Vector.zero + gravity0)) * (0.98 : ℚ)) ≤
    Vector.normSq (s.grp.particles j).vel
  simp only [Vector.normSq, Vector.add_def, Vector.mul_def, Vector.zero, gravity0] at hfast ⊢
  nlinarith [sq_nonneg ((s.grp.particles j).vel.y + 0.196),
    sq_nonneg ((s.grp.particles j).vel.x), hfast]

/-- Witness for the amended C7: a pool of sub-particles falling at speed 0.3
(at or above terminal speed) does not speed up. -/
theorem claim_C7_sub_speed_terminal_witness :
    (∀ k : Fin MAX_PARTICLES_COLOR,
      ((mkTickState (Particle.new true ⟨0, 0⟩ ⟨0, -0.3⟩)).grp.particles k).subparticle =
        true ∧
      ((mkTickState (Particle.new true ⟨0, 0⟩ ⟨0, -0.3⟩)).grp.particles k).dont_delete =
        true) ∧
    (0.196 : ℚ) ^ 2 ≤ Vector.normSq ((mkTickState
      (Particle.new true ⟨0, 0⟩ ⟨0, -0.3⟩)).grp.particles idx0).vel ∧
    Vector.normSq (((on_tick_group gravity0 vs0 (mkTickState
      (Particle.new true ⟨0, 0⟩ ⟨0, -0.3⟩))).grp.particles idx0).vel) ≤
      Vector.normSq ((mkTickState
        (Particle.new true ⟨0, 0⟩ ⟨0, -0.3⟩)).grp.particles idx0).vel := by
  have hall : ∀ k : Fin MAX_PARTICLES_COLOR,
      ((mkTickState (Particle.new true ⟨0, 0⟩ ⟨0, -0.3⟩)).grp.particles k).subparticle =
        true ∧
      ((mkTickState (Particle.new true ⟨0, 0⟩ ⟨0, -0.3⟩)).grp.particles k).dont_delete =
        true := fun _ => ⟨rfl, rfl⟩
  have hfast : (0.196 : ℚ) ^ 2 ≤ Vector.normSq ((mkTickState
      (Particle.new true ⟨0, 0⟩ ⟨0, -0.3⟩)).grp.particles idx0).vel := by
    show (0.196 : ℚ) ^ 2 ≤ (0 : ℚ) ^ 2 + (-0.3 : ℚ) ^ 2
    norm_num
  exact ⟨hall, hfast,
    claim_C7_sub_speed_terminal vs0 _ idx0 hall rfl hfast⟩

/-! ### Exact characterisation of the 19-spawn burst loop -/

theorem spawnFold_spec (vs : ℕ → Vector) (fi : Fin MAX_PARTICLES_COLOR) :
    ∀ (n : ℕ) (s : TickState),
      s.grp.add_at < MAX_PARTICLES_COLOR → s.grp.add_at + n ≤ MAX_PARTICLES_COLOR →
      (((List.range n).foldl (spawnStep vs fi) s).ridx = s.ridx + n ∧
       ((List.range n).foldl (spawnStep vs fi) s).events = s.events ∧
       ((List.range n).foldl (spawnStep vs fi) s).spawnLog =
         s.spawnLog ++ (List.range n).map (s.grp.add_at + ·) ∧
       ((List.range n).foldl (spawnStep vs fi) s).grp.add_at =
         (s.grp.add_at + n) % MAX_PARTICLES_COLOR ∧
       ((List.range n).foldl (spawnStep vs fi) s).grp.color = s.grp.color) ∧
      (∀ j : Fin MAX_PARTICLES_COLOR,
        (s.grp.add_at ≤ j.val → j.val < s.grp.add_at + n →
          ((List.range n).foldl (spawnStep vs fi) s).grp.particles j =
            Particle.new true (s.grp.particles fi).pos
              (vs (s.ridx + (j.val - s.grp.add_at))) ∧
          ((List.range n).foldl (spawnStep vs fi) s).grp.pos j =
            ((s.grp.particles fi).pos.x, (s.grp.particles fi).pos.y)) ∧
        (j.val < s.grp.add_at ∨ s.grp.add_at + n ≤ j.val →
          ((List.range n).foldl (spawnStep vs fi) s).grp.particles j =
            s.grp.particles j ∧
          ((List.range n).foldl (spawnStep vs fi) s).grp.pos j = s.grp.pos j)) := by
  intro n
  induction n with
  | zero =>
    intro s ha _
    refine ⟨⟨rfl, rfl, by simp, ?_, rfl⟩, fun j => ⟨fun h1 h2 => ?_, fun _ => ⟨rfl, rfl⟩⟩⟩
    · rw [Nat.add_zero, Nat.mod_eq_of_lt ha]
      rfl
    · omega
  | succ n ih =>
    intro s ha hA
    have hA2 : s.grp.add_at + n ≤ MAX_PARTICLES_COLOR := by omega
    have han : s.grp.add_at + n < MAX_PARTICLES_COLOR := by omega
    obtain ⟨⟨m1, m2, m3, m4, m5⟩, hslots⟩ := ih s ha hA2
    have hunroll : (List.range (n + 1)).foldl (spawnStep vs fi) s =
        spawnStep vs fi ((List.range n).foldl (spawnStep vs fi) s) n := by
      rw [List.range_succ, List.foldl_append, List.foldl_cons, List.foldl_nil]
    rw [hunroll]
    have hcur : ((List.range n).foldl (spawnStep vs fi) s).grp.add_at =
        s.grp.add_at + n := by
      rw [m4, Nat.mod_eq_of_lt han]
    have hpos0 : (((List.range n).foldl (spawnStep vs fi) s).grp.particles fi).pos =
        (s.grp.particles fi).pos := by
      by_cases hfi : s.grp.add_at ≤ fi.val ∧ fi.val < s.grp.add_at + n
      · rw [((hslots fi).1 hfi.1 hfi.2).1]
        rfl
      · rcases Nat.lt_or_ge fi.val s.grp.add_at with h | h
        · rw [((hslots fi).2 (Or.inl h)).1]
        · have h2 : s.grp.add_at + n ≤ fi.val := by omega
          rw [((hslots fi).2 (Or.inr h2)).1]
    have hgrp : (spawnStep vs fi ((List.range n).foldl (spawnStep vs fi) s) n).grp =
        create_particle ((List.range n).foldl (spawnStep vs fi) s).grp true
          (s.grp.particles fi).pos (vs (s.ridx + n)) := by
      rw [spawnStep_grp, hpos0, m1]
    refine ⟨⟨?_, ?_, ?_, ?_, ?_⟩, fun j => ⟨fun h1 h2 => ?_, fun hout => ?_⟩⟩
    · rw [spawnStep_ridx, m1]
      omega
    · rw [spawnStep_events, m2]
    · rw [spawnStep_spawnLog, m3, hcur, List.range_succ, List.map_append,
        List.append_assoc]
      rfl
    · rw [hgrp, create_particle_add_at _ _ _ _ (by rw [hcur]; exact han), hcur,
        Nat.add_assoc]
    · rw [hgrp, create_particle_color, m5]
    · -- slot j in the written range [add_at, add_at + n + 1)
      rw [hgrp]
      by_cases hj : j.val = s.grp.add_at + n
      · have hjeq : j = (⟨s.grp.add_at + n, han⟩ : Fin MAX_PARTICLES_COLOR) :=
          Fin.ext hj
        have htar := create_particle_target_at
          ((List.range n).foldl (spawnStep vs fi) s).grp true
          (s.grp.particles fi).pos (vs (s.ridx + n)) j (by rw [hcur, hj])
        rw [htar.1, htar.2, hj]
        rw [Nat.add_sub_cancel_left]
        exact ⟨rfl, rfl⟩
      · have hfr := create_particle_frame
          ((List.range n).foldl (spawnStep vs fi) s).grp true
          (s.grp.particles fi).pos (vs (s.ridx + n)) j (by rw [hcur]; exact hj)
        have hin2 : j.val < s.grp.add_at + n := by omega
        obtain ⟨hp, hq⟩ := (hslots j).1 h1 hin2
        exact ⟨hfr.1.trans hp, hfr.2.trans hq⟩
    · -- slot j outside the written range
      rw [hgrp]
      have hjne : j.val ≠ s.grp.add_at + n := by omega
      have hfr := create_particle_frame
        ((List.range n).foldl (spawnStep vs fi) s).grp true
        (s.grp.particles fi).pos (vs (s.ridx + n)) j (by rw [hcur]; exact hjne)
      have hout2 : j.val < s.grp.add_at ∨ s.grp.add_at + n ≤ j.val := by omega
      obtain ⟨hp, hq⟩ := (hslots j).2 hout2
      exact ⟨hfr.1.trans hp, hfr.2.trans hq⟩

/-! ### Exact characterisation of an exploding slot's iteration -/

theorem latchExploded_ridx (fi : Fin MAX_PARTICLES_COLOR) (s : TickState) :
    (latchExploded fi s).ridx = s.ridx := rfl

theorem latchExploded_spawnLog (fi : Fin MAX_PARTICLES_COLOR) (s : TickState) :
    (latchExploded fi s).spawnLog = s.spawnLog := rfl

theorem latchExploded_color (fi : Fin MAX_PARTICLES_COLOR) (s : TickState) :
    (latchExploded fi s).grp.color = s.grp.color := rfl

theorem Particle.latch_dd (p : Particle) :
    ({ p with exploded := true } : Particle).dont_delete = p.dont_delete := rfl

theorem Particle.latch_exploded (p : Particle) :
    ({ p with exploded := true } : Particle).exploded = true := rfl

theorem explodeBase_ridx (g : Vector) (s : TickState) (i : Fin MAX_PARTICLES_COLOR) :
    (explodeBase g s i).ridx = s.ridx := rfl

theorem explodeBase_events (g : Vector) (s : TickState) (i : Fin MAX_PARTICLES_COLOR) :
    (explodeBase g s i).events = s.events ++ [i.val] := rfl

theorem explodeBase_spawnLog (g : Vector) (s : TickState) (i : Fin MAX_PARTICLES_COLOR) :
    (explodeBase g s i).spawnLog = s.spawnLog := rfl

theorem explodeBase_add_at (g : Vector) (s : TickState) (i : Fin MAX_PARTICLES_COLOR) :
    (explodeBase g s i).grp.add_at = s.grp.add_at := rfl

theorem explodeBase_color (g : Vector) (s : TickState) (i : Fin MAX_PARTICLES_COLOR) :
    (explodeBase g s i).grp.color = s.grp.color := rfl

theorem explodeBase_particles_self (g : Vector) (s : TickState)
    (i : Fin MAX_PARTICLES_COLOR) :
    (explodeBase g s i).grp.particles i = stepP g (s.grp.particles i) :=
  integrateSlot_particles_self g s i

theorem explodeBase_particles_ne (g : Vector) (s : TickState)
    (i j : Fin MAX_PARTICLES_COLOR) (hj : j ≠ i) :
    (explodeBase g s i).grp.particles j = s.grp.particles j :=
  integrateSlot_particles_ne g s i j hj

theorem explodeBase_pos_self (g : Vector) (s : TickState) (i : Fin MAX_PARTICLES_COLOR) :
    (explodeBase g s i).grp.pos i = (9999.9, 9999.9) := by
  show Function.update (integrateSlot g s i).grp.pos i (9999.9, 9999.9) i = _
  rw [Function.update_same]

theorem explodeBase_pos_ne (g : Vector) (s : TickState) (i j : Fin MAX_PARTICLES_COLOR)
    (hj : j ≠ i) : (explodeBase g s i).grp.pos j = s.grp.pos j := by
  show Function.update (integrateSlot g s i).grp.pos i (9999.9, 9999.9) j = _
  rw [Function.update_noteq hj]
  exact integrateSlot_pos_ne g s i j hj

theorem processSlotB_explode_base (g : Vector) (vs : ℕ → Vector) (s : TickState)
    (i : Fin MAX_PARTICLES_COLOR)
    (hd1 : ((integrateSlot g s i).grp.particles i).dont_delete = false)
    (he1 : ((integrateSlot g s i).grp.particles i).exploded = false)
    (hs1 : ((integrateSlot g s i).grp.particles i).subparticle = false) :
    processSlotB vs (integrateSlot g s i) i =
      latchExploded i ((List.range 19).foldl (spawnStep vs i) (explodeBase g s i)) := by
  rw [processSlotB_explode vs (integrateSlot g s i) i hd1 he1 hs1]
  rfl

/-- The full effect of one slot's iteration when that slot fires the
explosion branch: the firing is logged, 19 draws are consumed, 19 fresh
sub-particles at the exploding slot's position land in the cursor-window
`[add_at, add_at + 19)` (assumed not to wrap), the cursor advances by 19,
and the exploding slot itself is latched — as the freshly written
sub-particle if the window covers it, otherwise as the stepped, retired main
particle next to the off-canvas sentinel. -/
theorem processSlot_explode_spec (g : Vector) (vs : ℕ → Vector) (s : TickState)
    (i : Fin MAX_PARTICLES_COLOR)
    (hd : (stepP g (s.grp.particles i)).dont_delete = false)
    (he : (s.grp.particles i).exploded = false)
    (hsub : (s.grp.particles i).subparticle = false)
    (ha : s.grp.add_at < MAX_PARTICLES_COLOR)
    (hA : s.grp.add_at + 19 ≤ MAX_PARTICLES_COLOR) :
    (processSlot g vs s i.val).ridx = s.ridx + 19 ∧
    (processSlot g vs s i.val).events = s.events ++ [i.val] ∧
    (processSlot g vs s i.val).spawnLog =
      s.spawnLog ++ (List.range 19).map (s.grp.add_at + ·) ∧
    (processSlot g vs s i.val).grp.add_at =
      (s.grp.add_at + 19) % MAX_PARTICLES_COLOR ∧
    (processSlot g vs s i.val).grp.color = s.grp.color ∧
    (∀ j : Fin MAX_PARTICLES_COLOR, j ≠ i →
      (s.grp.add_at ≤ j.val → j.val < s.grp.add_at + 19 →
        (processSlot g vs s i.val).grp.particles j =
          Particle.new true (stepP g (s.grp.particles i)).pos
            (vs (s.ridx + (j.val - s.grp.add_at))) ∧
        (processSlot g vs s i.val).grp.pos j =
          ((stepP g (s.grp.particles i)).pos.x,
           (stepP g (s.grp.particles i)).pos.y)) ∧
      (j.val < s.grp.add_at ∨ s.grp.add_at + 19 ≤ j.val →
        (processSlot g vs s i.val).grp.particles j = s.grp.particles j ∧
        (processSlot g vs s i.val).grp.pos j = s.grp.pos j)) ∧
    (i.val < s.grp.add_at ∨ s.grp.add_at + 19 ≤ i.val →
      (processSlot g vs s i.val).grp.particles i =
        { stepP g (s.grp.particles i) with exploded := true } ∧
      (processSlot g vs s i.val).grp.pos i = (9999.9, 9999.9)) ∧
    (s.grp.add_at ≤ i.val → i.val < s.grp.add_at + 19 →
      (processSlot g vs s i.val).grp.particles i =
        { Particle.new true (stepP g (s.grp.particles i)).pos
            (vs (s.ridx + (i.val - s.grp.add_at))) with exploded := true } ∧
      (processSlot g vs s i.val).grp.pos i =
        ((stepP g (s.grp.particles i)).pos.x,
         (stepP g (s.grp.particles i)).pos.y)) := by
  have hd1 : ((integrateSlot g s i).grp.particles i).dont_delete = false := by
    rw [integrateSlot_particles_self]
    exact hd
  have he1 : ((integrateSlot g s i).grp.particles i).exploded = false := by
    rw [integrateSlot_particles_self, (stepP_flags g _).1]
    exact he
  have hs1 : ((integrateSlot g s i).grp.particles i).subparticle = false := by
    rw [integrateSlot_particles_self, (stepP_flags g _).2]
    exact hsub
  have hmain : processSlot g vs s i.val =
      latchExploded i ((List.range 19).foldl (spawnStep vs i) (explodeBase g s i)) := by
    rw [processSlot_eq g vs s i.val i.isLt,
      show (⟨i.val, i.isLt⟩ : Fin MAX_PARTICLES_COLOR) = i from rfl]
    exact processSlotB_explode_base g vs s i hd1 he1 hs1
  obtain ⟨⟨m1, m2, m3, m4, m5⟩, hslots⟩ :=
    spawnFold_spec vs i 19 (explodeBase g s i)
      (by rw [explodeBase_add_at]; exact ha)
      (by rw [explodeBase_add_at]; exact hA)
  refine ⟨?_, ?_, ?_, ?_, ?_, ?_, ?_, ?_⟩
  · rw [hmain, latchExploded_ridx, m1, explodeBase_ridx]
  · rw [hmain, latchExploded_events, m2, explodeBase_events]
  · rw [hmain, latchExploded_spawnLog, m3, explodeBase_spawnLog, explodeBase_add_at]
  · rw [hmain, latchExploded_add_at, m4, explodeBase_add_at]
  · rw [hmain, latchExploded_color, m5, explodeBase_color]
  · intro j hj
    constructor
    · intro h1 h2
      have h1' : (explodeBase g s i).grp.add_at ≤ j.val := by
        rw [explodeBase_add_at]
        exact h1
      have h2' : j.val < (explodeBase g s i).grp.add_at + 19 := by
        rw [explodeBase_add_at]
        exact h2
      obtain ⟨hp, hq⟩ := (hslots j).1 h1' h2'
      constructor
      · rw [hmain, latchExploded_particles_ne _ _ _ hj, hp, explodeBase_particles_self,
          explodeBase_ridx, explodeBase_add_at]
      · rw [hmain, latchExploded_pos, hq, explodeBase_particles_self]
    · intro hout
      have hout' : j.val < (explodeBase g s i).grp.add_at ∨
          (explodeBase g s i).grp.add_at + 19 ≤ j.val := by
        rw [explodeBase_add_at]
        exact hout
      obtain ⟨hp, hq⟩ := (hslots j).2 hout'
      constructor
      · rw [hmain, latchExploded_particles_ne _ _ _ hj, hp,
          explodeBase_particles_ne g s i j hj]
      · rw [hmain, latchExploded_pos, hq, explodeBase_pos_ne g s i j hj]
  · intro hout
    have hout' : i.val < (explodeBase g s i).grp.add_at ∨
        (explodeBase g s i).grp.add_at + 19 ≤ i.val := by
      rw [explodeBase_add_at]
      exact hout
    obtain ⟨hp, hq⟩ := (hslots i).2 hout'
    constructor
    · rw [hmain, latchExploded_particles_self, hp, explodeBase_particles_self]
    · rw [hmain, latchExploded_pos, hq, explodeBase_pos_self]
  · intro h1 h2
    have h1' : (explodeBase g s i).grp.add_at ≤ i.val := by
      rw [explodeBase_add_at]
      exact h1
    have h2' : i.val < (explodeBase g s i).grp.add_at + 19 := by
      rw [explodeBase_add_at]
      exact h2
    obtain ⟨hp, hq⟩ := (hslots i).1 h1' h2'
    constructor
    · rw [hmain, latchExploded_particles_self, hp, explodeBase_particles_self,
        explodeBase_ridx, explodeBase_add_at]
    · rw [hmain, latchExploded_pos, hq, explodeBase_particles_self]

/-! ### Claim C2 -/

theorem range_head_split :
    List.range MAX_PARTICLES_COLOR =
      idx0.val :: (List.range 999).map (fun x => idx0.val + 1 + x) := by
  rw [range_split MAX_PARTICLES_COLOR idx0.val idx0.isLt]
  rfl

/-- C2 counterexample: the burst slots are re-integrated — and damped — in
the same tick when they lie after the exploding slot.  With the retiring
main particle in slot 0 and the cursor at 1, the burst lands in slots 1–19;
each draw is `(0, -0.2)` (speed exactly `0.2`, inside `[0.2, 0.4)`), but the
loop then reaches slots 1–19, applies gravity and the `0.98` damping, and
leaves slot 1 with velocity `(0, -0.19992)` — squared speed
`0.0399680064 < 0.04`, i.e. speed `< 0.2`, so at the end of the tick the
burst slots do not all hold speeds in `[0.2, 0.4)`. -/
theorem claim_C2_counterexample :
    (C2cexState.grp.particles idx0).subparticle = false ∧
    (C2cexState.grp.particles idx0).exploded = false ∧
    (C2cexState.grp.particles idx0).dont_delete = true ∧
    (C2cexState.grp.particles idx0).vel.y ≤ -0.05 ∧
    Vector.normSq (vsC2 0) = 0.04 ∧
    (on_tick_group gravity0 vsC2 C2cexState).events = [0] ∧
    (on_tick_group gravity0 vsC2 C2cexState).spawnLog =
      (List.range 19).map (1 + ·) ∧
    ((on_tick_group gravity0 vsC2 C2cexState).grp.particles idx1).subparticle = true ∧
    Vector.normSq ((on_tick_group gravity0 vsC2 C2cexState).grp.particles idx1).vel
      < 0.04 := by
  have hI0 : C2cexState.grp.particles idx0 = C2cexM := by
    show (if idx0 = idx0 then C2cexM else C2cexQ) = C2cexM
    rw [if_pos rfl]
  have hIne : ∀ j : Fin MAX_PARTICLES_COLOR, j ≠ idx0 →
      C2cexState.grp.particles j = C2cexQ := fun j hj => by
    show (if j = idx0 then C2cexM else C2cexQ) = C2cexQ
    rw [if_neg hj]
  have hstep0 : stepP gravity0 (C2cexState.grp.particles idx0) =
      { C2cexM with acc := C2cexM.acc + gravity0, dont_delete := false } := by
    rw [hI0]
    exact stepP_retire gravity0 C2cexM rfl
      (Or.inr (by show (-0.06 : ℚ) ≤ -0.05; norm_num))
  obtain ⟨e1, e2, e3, e4, e5, eslots, eout, ein⟩ :=
    processSlot_explode_spec gravity0 vsC2 C2cexState idx0
      (by rw [hstep0]) rfl rfl (by decide) (by decide)
  have hunfold : on_tick_group gravity0 vsC2 C2cexState =
      ((List.range 999).map (fun x => idx0.val + 1 + x)).foldl
        (processSlot gravity0 vsC2)
        (processSlot gravity0 vsC2 C2cexState idx0.val) := by
    rw [on_tick_group_eq_fold, range_head_split, List.foldl_cons]
  have htail : ∀ j : Fin MAX_PARTICLES_COLOR,
      j.val ∈ (List.range 999).map (fun x => idx0.val + 1 + x) →
      (stepP gravity0
        ((processSlot gravity0 vsC2 C2cexState idx0.val).grp.particles j)).dont_delete
        = true := by
    intro j hj
    obtain ⟨x, hx, hjx⟩ := List.mem_map.mp hj
    have hx999 : x < 999 := List.mem_range.mp hx
    have h0 : idx0.val = 0 := rfl
    have hge1 : 1 ≤ j.val := by omega
    have hjne : j ≠ idx0 := by
      intro hE
      rw [hE, h0] at hge1
      exact absurd hge1 (by norm_num)
    have hac : C2cexState.grp.add_at = 1 := rfl
    by_cases hcase : j.val < 20
    · have h1 : C2cexState.grp.add_at ≤ j.val := by omega
      have h2 : j.val < C2cexState.grp.add_at + 19 := by omega
      rw [((eslots j hjne).1 h1 h2).1]
      exact (stepP_dd_of_sub gravity0 _ rfl).trans rfl
    · have hout : j.val < C2cexState.grp.add_at ∨
          C2cexState.grp.add_at + 19 ≤ j.val := by omega
      rw [((eslots j hjne).2 hout).1, hIne j hjne]
      exact (stepP_dd_of_sub gravity0 _ rfl).trans rfl
  have hnd : ((List.range 999).map (fun x => idx0.val + 1 + x)).Nodup :=
    List.Nodup.map
      (fun a b hab => by
        have h2 : idx0.val + 1 + a = idx0.val + 1 + b := hab
        omega)
      (List.nodup_range 999)
  obtain ⟨⟨n1, n2, n3, n4, n5⟩, nslots⟩ :=
    fold_no_explosion gravity0 vsC2 ((List.range 999).map (fun x => idx0.val + 1 + x))
      hnd (processSlot gravity0 vsC2 C2cexState idx0.val) htail
  have hmem1 : idx1.val ∈ (List.range 999).map (fun x => idx0.val + 1 + x) :=
    List.mem_map.mpr ⟨0, List.mem_range.mpr (by norm_num), rfl⟩
  have hp1 := ((eslots idx1 (by decide)).1 (by decide) (by decide)).1
  have hfin1 : (on_tick_group gravity0 vsC2 C2cexState).grp.particles idx1 =
      stepP gravity0 (Particle.new true
        (stepP gravity0 (C2cexState.grp.particles idx0)).pos
        (vsC2 (C2cexState.ridx + (idx1.val - C2cexState.grp.add_at)))) := by
    rw [hunfold, ((nslots idx1).1 hmem1).1, hp1]
  have hvel : ((on_tick_group gravity0 vsC2 C2cexState).grp.particles idx1).vel =
      (vsC2 (C2cexState.ridx + (idx1.val - C2cexState.grp.add_at)) +
        (Vector.zero + gravity0)) * (0.98 : ℚ) := by
    rw [hfin1, stepP_sub gravity0 (Particle.new true
      (stepP gravity0 (C2cexState.grp.particles idx0)).pos
      (vsC2 (C2cexState.ridx + (idx1.val - C2cexState.grp.add_at)))) rfl]
    rfl
  refine ⟨rfl, rfl, rfl, by show (-0.06 : ℚ) ≤ -0.05; norm_num,
    by show (0 : ℚ) ^ 2 + (-0.2 : ℚ) ^ 2 = 0.04; norm_num, ?_, ?_, ?_, ?_⟩
  · rw [hunfold, n4, e2]
    rfl
  · rw [hunfold, n5, e3]
    rfl
  · rw [hfin1, (stepP_flags _ _).2]
    rfl
  · rw [hvel]
    norm_num [Vector.normSq, Vector.add_def, Vector.mul_def, vsC2, gravity0,
      Vector.zero]

/-- C2 (amended): the burst behaves exactly as claimed — sentinel pushed,
exactly 19 sub-particle spawns at the retiring particle's last position,
one ghost event, 19 draws consumed — and the 19 burst slots still hold
sub-particles with speed in `[0.2, 0.4)` (squared speed in `[0.04, 0.16)`)
at the end of the tick, provided the burst lands in slots the loop has
already passed: here the retiring main sits in the last slot 999 with the
cursor at 0, so slots 0–18 receive the burst and are not re-integrated.
In general (see the counterexample) burst slots after the exploding index
are re-integrated and damped below the claimed range in the same tick. -/
theorem claim_C2_explosion_burst (g : Vector) (vs : ℕ → Vector) (s : TickState)
    (hsub : (s.grp.particles idx999).subparticle = false)
    (hexp : (s.grp.particles idx999).exploded = false)
    (hret : (s.grp.particles idx999).vel.y ≤ -0.05)
    (hothers : ∀ j : Fin MAX_PARTICLES_COLOR, j ≠ idx999 →
      (s.grp.particles j).subparticle = true ∧ (s.grp.particles j).dont_delete = true)
    (hadd : s.grp.add_at = 0)
    (hdraws : ∀ k : ℕ, k < 19 → 0.04 ≤ Vector.normSq (vs (s.ridx + k)) ∧
      Vector.normSq (vs (s.ridx + k)) < 0.16) :
    (on_tick_group g vs s).events = s.events ++ [999] ∧
    (on_tick_group g vs s).grp.pos idx999 = (9999.9, 9999.9) ∧
    ((on_tick_group g vs s).grp.particles idx999).dont_delete = false ∧
    ((on_tick_group g vs s).grp.particles idx999).exploded = true ∧
    (on_tick_group g vs s).ridx = s.ridx + 19 ∧
    (∀ j : Fin MAX_PARTICLES_COLOR, j.val < 19 →
      (on_tick_group g vs s).grp.particles j =
        Particle.new true (s.grp.particles idx999).pos (vs (s.ridx + j.val)) ∧
      ((on_tick_group g vs s).grp.particles j).subparticle = true ∧
      0.04 ≤ Vector.normSq ((on_tick_group g vs s).grp.particles j).vel ∧
      Vector.normSq ((on_tick_group g vs s).grp.particles j).vel < 0.16) := by
  have hstep1 : ∀ j : Fin MAX_PARTICLES_COLOR, j.val ∈ List.range idx999.val →
      (stepP g (s.grp.particles j)).dont_delete = true := by
    intro j hj
    have hjlt : j.val < idx999.val := List.mem_range.mp hj
    have hjne : j ≠ idx999 := by
      intro hE
      rw [hE] at hjlt
      exact absurd hjlt (lt_irrefl _)
    obtain ⟨hjs, hjd⟩ := hothers j hjne
    rw [stepP_dd_of_sub g _ hjs]
    exact hjd
  obtain ⟨⟨n1, n2, n3, n4, n5⟩, nslots⟩ :=
    fold_no_explosion g vs (List.range idx999.val)
      (List.nodup_range _) s hstep1
  have hnotmem : idx999.val ∉ List.range idx999.val := by
    intro hmem
    exact absurd (List.mem_range.mp hmem) (lt_irrefl _)
  have hp999 : ((List.range idx999.val).foldl (processSlot g vs) s).grp.particles idx999
      = s.grp.particles idx999 := ((nslots idx999).2 hnotmem).1
  have hdX : (stepP g
      (((List.range idx999.val).foldl (processSlot g vs) s).grp.particles
        idx999)).dont_delete = false := by
    rw [hp999, stepP_retire g _ hsub (Or.inr hret)]
  have heX : (((List.range idx999.val).foldl (processSlot g vs) s).grp.particles
      idx999).exploded = false := by
    rw [hp999]
    exact hexp
  have hsX : (((List.range idx999.val).foldl (processSlot g vs) s).grp.particles
      idx999).subparticle = false := by
    rw [hp999]
    exact hsub
  have haX : ((List.range idx999.val).foldl (processSlot g vs) s).grp.add_at
      < MAX_PARTICLES_COLOR := by
    rw [n1, hadd]
    exact MAX_pos
  have hAX : ((List.range idx999.val).foldl (processSlot g vs) s).grp.add_at + 19
      ≤ MAX_PARTICLES_COLOR := by
    rw [n1, hadd]
    norm_num [MAX_PARTICLES_COLOR]
  obtain ⟨e1, e2, e3, e4, e5, eslots, eout, ein⟩ :=
    processSlot_explode_spec g vs ((List.range idx999.val).foldl (processSlot g vs) s)
      idx999 hdX heX hsX haX hAX
  have hout999 : idx999.val <
        ((List.range idx999.val).foldl (processSlot g vs) s).grp.add_at ∨
      ((List.range idx999.val).foldl (processSlot g vs) s).grp.add_at + 19
        ≤ idx999.val := by
    right
    rw [n1, hadd]
    decide
  obtain ⟨ep999, eq999⟩ := eout hout999
  have hunfold : on_tick_group g vs s =
      processSlot g vs ((List.range idx999.val).foldl (processSlot g vs) s)
        idx999.val := by
    rw [on_tick_group_eq_fold,
      show List.range MAX_PARTICLES_COLOR = List.range (idx999.val + 1) from rfl,
      List.range_succ, List.foldl_append, List.foldl_cons, List.foldl_nil]
  refine ⟨?_, ?_, ?_, ?_, ?_, ?_⟩
  · rw [hunfold, e2, n4]
    rfl
  · rw [hunfold]
    exact eq999
  · rw [hunfold, ep999, Particle.latch_dd]
    exact hdX
  · rw [hunfold, ep999, Particle.latch_exploded]
  · rw [hunfold, e1, n3]
  · intro j hj
    have hjne : j ≠ idx999 := by
      intro hE
      rw [hE] at hj
      exact absurd hj (by decide)
    have h1 : ((List.range idx999.val).foldl (processSlot g vs) s).grp.add_at
        ≤ j.val := by
      rw [n1, hadd]
      exact Nat.zero_le _
    have h2 : j.val <
        ((List.range idx999.val).foldl (processSlot g vs) s).grp.add_at + 19 := by
      rw [n1, hadd]
      omega
    obtain ⟨epj, eqj⟩ := (eslots j hjne).1 h1 h2
    have hPj : (on_tick_group g vs s).grp.particles j =
        Particle.new true (s.grp.particles idx999).pos (vs (s.ridx + j.val)) := by
      rw [hunfold, epj, hp999, stepP_retire g _ hsub (Or.inr hret), n3, n1, hadd]
      rfl
    have hv : ((on_tick_group g vs s).grp.particles j).vel = vs (s.ridx + j.val) := by
      rw [hPj]
      rfl
    exact ⟨hPj, by rw [hPj]; rfl,
      by rw [hv]; exact (hdraws j.val hj).1,
      by rw [hv]; exact (hdraws j.val hj).2⟩

/-- Witness for the amended C2 theorem, at a concrete state: the retiring
main `(0, -50)`-rocket in slot 999, cursor 0, all other slots alive
sub-particles, every draw `(0, -0.3)` (squared speed `0.09 ∈ [0.04, 0.16)`). -/
theorem claim_C2_explosion_burst_witness :
    (C2witState.grp.particles idx999).subparticle = false ∧
    (C2witState.grp.particles idx999).exploded = false ∧
    (C2witState.grp.particles idx999).vel.y ≤ -0.05 ∧
    C2witState.grp.add_at = 0 ∧
    (on_tick_group gravity0 vs0 C2witState).events = C2witState.events ++ [999] ∧
    (on_tick_group gravity0 vs0 C2witState).grp.pos idx999 = (9999.9, 9999.9) ∧
    ((on_tick_group gravity0 vs0 C2witState).grp.particles idx999).exploded = true ∧
    (on_tick_group gravity0 vs0 C2witState).grp.particles idx1 =
      Particle.new true (C2witState.grp.particles idx999).pos
        (vs0 (C2witState.ridx + idx1.val)) := by
  have h := claim_C2_explosion_burst gravity0 vs0 C2witState rfl rfl
    (by show (-0.06 : ℚ) ≤ -0.05; norm_num)
    (fun j hj => by
      have hB : C2witState.grp.particles j = C2cexQ := if_neg hj
      rw [hB]
      exact ⟨rfl, rfl⟩)
    rfl
    (fun k hk => by
      constructor
      · show (0.04 : ℚ) ≤ (0 : ℚ) ^ 2 + (-0.3 : ℚ) ^ 2
        norm_num
      · show ((0 : ℚ) ^ 2 + (-0.3 : ℚ) ^ 2 : ℚ) < 0.16
        norm_num)
  exact ⟨rfl, rfl, by show (-0.06 : ℚ) ≤ -0.05; norm_num, rfl,
    h.1, h.2.1, h.2.2.2.1, (h.2.2.2.2.2 idx1 (by decide)).1⟩

/-! ### Claim C10 -/

theorem stepN_zero (g : Vector) (p : Particle) : stepN g 0 p = p := rfl

theorem stepN_succ (g : Vector) (n : ℕ) (p : Particle) :
    stepN g (n + 1) p = stepP g (stepN g n p) :=
  Function.iterate_succ_apply' (stepP g) n p

/-- Closed form of the placeholder's first 13 steps under the engine
gravity: it stays an alive, unexploded main particle with zero pending
acceleration and vertical velocity `-0.004·k`. -/
theorem stepN_placeholder : ∀ k : ℕ, k ≤ 13 →
    (stepN gravity0 k placeholder).vel = ⟨0, -0.004 * k⟩ ∧
    (stepN gravity0 k placeholder).acc = Vector.zero ∧
    (stepN gravity0 k placeholder).dont_delete = true ∧
    (stepN gravity0 k placeholder).exploded = false ∧
    (stepN gravity0 k placeholder).subparticle = false := by
  intro k
  induction k with
  | zero =>
    intro _
    refine ⟨?_, rfl, rfl, rfl, rfl⟩
    show Vector.zero = ⟨0, -0.004 * ((0 : ℕ) : ℚ)⟩
    norm_num [Vector.zero, Vector.mk.injEq]
  | succ n ih =>
    intro hk
    obtain ⟨hv, hacc, hdd, hex, hsubp⟩ := ih (by omega)
    have hlt : ¬(stepN gravity0 n placeholder).vel.y ≤ -0.05 := by
      rw [hv]
      show ¬(-0.004 * (n : ℚ) ≤ -0.05)
      intro hcon
      have hn12 : (n : ℚ) ≤ 12 := by exact_mod_cast (by omega : n ≤ 12)
      linarith
    rw [stepN_succ, stepP_live_main gravity0 _ hsubp hdd hlt]
    refine ⟨?_, rfl, ?_, ?_, ?_⟩
    · show (stepN gravity0 n placeholder).vel +
        ((stepN gravity0 n placeholder).acc + gravity0) = ⟨0, -0.004 * ((n + 1 : ℕ) : ℚ)⟩
      rw [hv, hacc]
      simp only [Vector.add_def, Vector.zero, gravity0, Vector.mk.injEq]
      constructor
      · norm_num
      · push_cast
        ring
    · rw [hdd]
    · rw [hex]
    · rw [hsubp]

theorem on_tick_app_step_gravity (vs : ℕ → Vector) (a : App) (c : Fin COLORS.length) :
    (on_tick_app_step vs a c).gravity = a.gravity := rfl

theorem on_tick_app_step_events (vs : ℕ → Vector) (a : App) (c : Fin COLORS.length) :
    (on_tick_app_step vs a c).events = a.events ++
      (on_tick_group a.gravity vs
        { grp := a.particle_groups c, ridx := a.ridx,
          events := [], spawnLog := [] }).events.map (fun e => (c.val, e)) := rfl

theorem on_tick_app_step_groups (vs : ℕ → Vector) (a : App) (c : Fin COLORS.length) :
    (on_tick_app_step vs a c).particle_groups =
      Function.update a.particle_groups c
        (on_tick_group a.gravity vs
          { grp := a.particle_groups c, ridx := a.ridx,
            events := [], spawnLog := [] }).grp := rfl

/-- Folding the per-group tick over a duplicate-free list of colour indices
whose groups are all uniformly `k` steps into the placeholder evolution
(`k ≤ 12`, so nobody retires): every listed group advances to `k + 1` steps,
no events are logged, and unlisted groups are untouched. -/
theorem appFold_uniform (vs : ℕ → Vector) (k : ℕ) (hk : k ≤ 12) :
    ∀ L : List (Fin COLORS.length), L.Nodup → ∀ a : App,
      a.gravity = gravity0 →
      (∀ c ∈ L, (a.particle_groups c).add_at = 0 ∧
        ∀ j : Fin MAX_PARTICLES_COLOR,
          (a.particle_groups c).particles j = stepN gravity0 k placeholder) →
      (L.foldl (on_tick_app_step vs) a).gravity = a.gravity ∧
      (L.foldl (on_tick_app_step vs) a).events = a.events ∧
      (∀ c ∈ L, ((L.foldl (on_tick_app_step vs) a).particle_groups c).add_at = 0 ∧
        ∀ j : Fin MAX_PARTICLES_COLOR,
          ((L.foldl (on_tick_app_step vs) a).particle_groups c).particles j =
            stepN gravity0 (k + 1) placeholder) ∧
      (∀ c : Fin COLORS.length, c ∉ L →
        (L.foldl (on_tick_app_step vs) a).particle_groups c = a.particle_groups c) := by
  intro L
  induction L with
  | nil =>
    intro _ a _ _
    exact ⟨rfl, rfl, fun c hc => absurd hc (List.not_mem_nil _), fun c _ => rfl⟩
  | cons c0 L ih =>
    intro hnd a hg hU
    obtain ⟨hnotin, hnd2⟩ := List.nodup_cons.mp hnd
    obtain ⟨ha0, hap⟩ := hU c0 (List.mem_cons_self _ _)
    have hstep : ∀ j : Fin MAX_PARTICLES_COLOR,
        (stepP a.gravity ((a.particle_groups c0).particles j)).dont_delete = true := by
      intro j
      rw [hg, hap j, ← stepN_succ]
      exact (stepN_placeholder (k + 1) (by omega)).2.2.1
    obtain ⟨⟨t1, t2, t3, t4, t5⟩, tslots⟩ :=
      on_tick_all_live a.gravity vs
        { grp := a.particle_groups c0, ridx := a.ridx, events := [], spawnLog := [] }
        hstep
    have hg1 : (on_tick_app_step vs a c0).gravity = gravity0 := by
      rw [on_tick_app_step_gravity]
      exact hg
    have hU1 : ∀ c ∈ L, ((on_tick_app_step vs a c0).particle_groups c).add_at = 0 ∧
        ∀ j : Fin MAX_PARTICLES_COLOR,
          ((on_tick_app_step vs a c0).particle_groups c).particles j =
            stepN gravity0 k placeholder := by
      intro c hc
      have hcne : c ≠ c0 := fun hE => hnotin (hE ▸ hc)
      rw [on_tick_app_step_groups, Function.update_noteq hcne]
      exact hU c (List.mem_cons_of_mem _ hc)
    obtain ⟨f1, f2, f3, f4⟩ := ih hnd2 (on_tick_app_step vs a c0) hg1 hU1
    rw [List.foldl_cons]
    refine ⟨?_, ?_, ?_, ?_⟩
    · rw [f1, on_tick_app_step_gravity]
    · rw [f2, on_tick_app_step_events]
      have ht4 : (on_tick_group a.gravity vs
          { grp := a.particle_groups c0, ridx := a.ridx,
            events := [], spawnLog := [] } : TickState).events = [] := t4
      rw [ht4, List.map_nil, List.append_nil]
    · intro c hc
      rcases List.mem_cons.mp hc with h1 | h2
      · subst h1
        rw [f4 c hnotin, on_tick_app_step_groups, Function.update_same]
        refine ⟨?_, fun j => ?_⟩
        · rw [t1]
          exact ha0
        · rw [(tslots j).1]
          show stepP a.gravity ((a.particle_groups c).particles j) =
            stepN gravity0 (k + 1) placeholder
          rw [hg, hap j, ← stepN_succ]
      · exact f3 c h2
    · intro c hcnot
      have hc0 : c ≠ c0 := fun hE => hcnot (hE ▸ List.mem_cons_self _ _)
      have hcL : c ∉ L := fun hE => hcnot (List.mem_cons_of_mem _ hE)
      rw [f4 c hcL, on_tick_app_step_groups, Function.update_noteq hc0]

theorem App.ticks_succ (vs : ℕ → Vector) (n : ℕ) (a : App) :
    App.ticks vs (n + 1) a = App.on_tick vs (App.ticks vs n a) :=
  Function.iterate_succ_apply' (App.on_tick vs) n a

theorem App.on_tick_eq_fold (vs : ℕ → Vector) (a : App) :
    App.on_tick vs a = (List.finRange COLORS.length).foldl (on_tick_app_step vs) a :=
  rfl

theorem AppU_new : AppU 0 App.new :=
  ⟨rfl, rfl, fun _ => ⟨rfl, fun _ => rfl⟩⟩

/-- The first 13 ticks of a fresh engine are uniform: every slot of every
group holds the placeholder stepped once per tick, and nothing explodes. -/
theorem app_ticks_uniform (vs : ℕ → Vector) :
    ∀ n : ℕ, n ≤ 13 → AppU n (App.ticks vs n App.new) := by
  intro n
  induction n with
  | zero => exact fun _ => AppU_new
  | succ n ih =>
    intro hk
    obtain ⟨hg, hev, hgr⟩ := ih (by omega)
    rw [App.ticks_succ, App.on_tick_eq_fold]
    obtain ⟨f1, f2, f3, f4⟩ :=
      appFold_uniform vs n (by omega) (List.finRange COLORS.length)
        (List.nodup_finRange _) (App.ticks vs n App.new) hg
        (fun c _ => hgr c)
    exact ⟨f1.trans hg, f2.trans hev, fun c => f3 c (List.mem_finRange c)⟩

/-- Tick 14 of a uniform group: the placeholder in slot 0 (vertical velocity
`-0.052 ≤ -0.05`) retires and fires; its burst overwrites slots 0–18 with
sub-particles before they are processed, so slot 1 never fires — neither in
this tick nor later (its occupant is a sub-particle from here on). -/
theorem tick14_group (vs : ℕ → Vector) (s : TickState)
    (hadd : s.grp.add_at = 0)
    (hp : ∀ j : Fin MAX_PARTICLES_COLOR,
      s.grp.particles j = stepN gravity0 13 placeholder)
    (hev : s.events = []) :
    0 ∈ (on_tick_group gravity0 vs s).events ∧
    1 ∉ (on_tick_group gravity0 vs s).events ∧
    ESub ((on_tick_group gravity0 vs s).grp.particles idx1) := by
  obtain ⟨h13v, h13a, h13d, h13e, h13s⟩ := stepN_placeholder 13 (by norm_num)
  have hretire : stepP gravity0 (s.grp.particles idx0) =
      { stepN gravity0 13 placeholder with
        acc := (stepN gravity0 13 placeholder).acc + gravity0
        dont_delete := false } := by
    rw [hp idx0]
    exact stepP_retire gravity0 _ h13s (Or.inr (by
      rw [h13v]
      show (-0.004 * ((13 : ℕ) : ℚ) : ℚ) ≤ -0.05
      norm_num))
  obtain ⟨e1, e2, e3, e4, e5, eslots, eout, ein⟩ :=
    processSlot_explode_spec gravity0 vs s idx0
      (by rw [hretire])
      (by rw [hp idx0]; exact h13e)
      (by rw [hp idx0]; exact h13s)
      (by rw [hadd]; exact MAX_pos)
      (by rw [hadd]; norm_num [MAX_PARTICLES_COLOR])
  have hunfold : on_tick_group gravity0 vs s =
      ((List.range 999).map (fun x => idx0.val + 1 + x)).foldl
        (processSlot gravity0 vs) (processSlot gravity0 vs s idx0.val) := by
    rw [on_tick_group_eq_fold, range_head_split, List.foldl_cons]
  have hp1 := ((eslots idx1 (by decide)).1
    (by rw [hadd]; exact Nat.zero_le _) (by rw [hadd]; decide)).1
  have hT1ev : (processSlot gravity0 vs s idx0.val).events = [0] := by
    rw [e2, hev]
    rfl
  have hkeep := tick_fold_noevent gravity0 vs idx1
    ((List.range 999).map (fun x => idx0.val + 1 + x))
    (processSlot gravity0 vs s idx0.val)
    ⟨by rw [hp1]; exact ESub_new _ _, by rw [hT1ev]; decide⟩
  have hin0 : 0 ∈ ((((List.range 999).map (fun x => idx0.val + 1 + x)).foldl
      (processSlot gravity0 vs) (processSlot gravity0 vs s idx0.val))).events :=
    foldl_pres (processSlot gravity0 vs) (fun t => 0 ∈ t.events) _ _
      (fun i _ t ht => processSlot_events_mono gravity0 vs t i 0 ht)
      (by show 0 ∈ (processSlot gravity0 vs s idx0.val).events; rw [hT1ev]; decide)
  rw [hunfold]
  exact ⟨hin0, hkeep.2, hkeep.1⟩

/-- Tick 14 at the engine level, group 0's turn: the explosion of slot 0 is
logged as `(0, 0)`, slot 1 stays silent, and slot 1 now holds a
sub-particle. -/
theorem tick14_app_step (vs : ℕ → Vector) (a : App)
    (hg : a.gravity = gravity0)
    (ha0 : (a.particle_groups cidx0).add_at = 0)
    (hap : ∀ j : Fin MAX_PARTICLES_COLOR,
      (a.particle_groups cidx0).particles j = stepN gravity0 13 placeholder)
    (h01 : (0, 1) ∉ a.events) :
    (on_tick_app_step vs a cidx0).gravity = gravity0 ∧
    (0, 0) ∈ (on_tick_app_step vs a cidx0).events ∧
    (0, 1) ∉ (on_tick_app_step vs a cidx0).events ∧
    ESub (((on_tick_app_step vs a cidx0).particle_groups cidx0).particles idx1) := by
  have hmeat := tick14_group vs
    { grp := a.particle_groups cidx0, ridx := a.ridx, events := [], spawnLog := [] }
    ha0 (fun j => hap j) rfl
  refine ⟨by rw [on_tick_app_step_gravity]; exact hg, ?_, ?_, ?_⟩
  · rw [on_tick_app_step_events, hg]
    refine List.mem_append_right _ ?_
    exact List.mem_map.mpr ⟨0, hmeat.1, rfl⟩
  · rw [on_tick_app_step_events, hg]
    intro hmem
    rcases List.mem_append.mp hmem with h1 | h1
    · exact h01 h1
    · obtain ⟨e, he, hpair⟩ := List.mem_map.mp h1
      have h2 : e = 1 := congrArg Prod.snd hpair
      rw [h2] at he
      exact hmeat.2.1 he
  · rw [on_tick_app_step_groups, Function.update_same, hg]
    exact hmeat.2.2

/-- Any further group turn preserves the tick-14 facts: gravity, the logged
`(0, 0)`, the absence of `(0, 1)`, and the sub-particle occupying slot 1 of
group 0. -/
theorem appstep_keep (vs : ℕ → Vector) (b : App) (c : Fin COLORS.length)
    (h : b.gravity = gravity0 ∧ (0, 0) ∈ b.events ∧ (0, 1) ∉ b.events ∧
      ESub ((b.particle_groups cidx0).particles idx1)) :
    (on_tick_app_step vs b c).gravity = gravity0 ∧
    (0, 0) ∈ (on_tick_app_step vs b c).events ∧
    (0, 1) ∉ (on_tick_app_step vs b c).events ∧
    ESub (((on_tick_app_step vs b c).particle_groups cidx0).particles idx1) := by
  obtain ⟨hg, h00, h01, hE⟩ := h
  by_cases hc : c = cidx0
  · subst hc
    have hkeep := on_tick_group_noevent b.gravity vs idx1
      { grp := b.particle_groups cidx0, ridx := b.ridx, events := [], spawnLog := [] }
      ⟨hE, List.not_mem_nil _⟩
    refine ⟨by rw [on_tick_app_step_gravity]; exact hg, ?_, ?_, ?_⟩
    · rw [on_tick_app_step_events]
      exact List.mem_append_left _ h00
    · rw [on_tick_app_step_events]
      intro hmem
      rcases List.mem_append.mp hmem with h1 | h1
      · exact h01 h1
      · obtain ⟨e, he, hpair⟩ := List.mem_map.mp h1
        have h2 : e = 1 := congrArg Prod.snd hpair
        rw [h2] at he
        exact hkeep.2 he
    · rw [on_tick_app_step_groups, Function.update_same]
      exact hkeep.1
  · have hcne : cidx0 ≠ c := fun hE2 => hc hE2.symm
    refine ⟨by rw [on_tick_app_step_gravity]; exact hg, ?_, ?_, ?_⟩
    · rw [on_tick_app_step_events]
      exact List.mem_append_left _ h00
    · rw [on_tick_app_step_events]
      intro hmem
      rcases List.mem_append.mp hmem with h1 | h1
      · exact h01 h1
      · obtain ⟨e, he, hpair⟩ := List.mem_map.mp h1
        have h2 : c.val = 0 := congrArg Prod.fst hpair
        exact hc (Fin.ext h2)
    · rw [on_tick_app_step_groups, Function.update_noteq hcne]
      exact hE

theorem finRange_head :
    List.finRange COLORS.length = cidx0 :: (List.finRange 5).map Fin.succ := by
  decide

/-- The decisive tick-14 facts of a fresh engine, for any draw stream: no
explosion in the first 13 ticks, slot 0 of group 0 fires on tick 14, and
slot 1 of group 0 never fires through tick 14. -/
theorem tick14_facts (vs : ℕ → Vector) :
    (App.ticks vs 13 App.new).events = [] ∧
    (0, 0) ∈ (App.ticks vs 14 App.new).events ∧
    (0, 1) ∉ (App.ticks vs 14 App.new).events := by
  obtain ⟨hg, hev, hgr⟩ := app_ticks_uniform vs 13 (by norm_num)
  refine ⟨hev, ?_⟩
  have hstep := tick14_app_step vs (App.ticks vs 13 App.new) hg
    (hgr cidx0).1 (hgr cidx0).2 (by rw [hev]; exact List.not_mem_nil _)
  have hfold := foldl_pres (on_tick_app_step vs)
    (fun b => b.gravity = gravity0 ∧ (0, 0) ∈ b.events ∧ (0, 1) ∉ b.events ∧
      ESub ((b.particle_groups cidx0).particles idx1))
    ((List.finRange 5).map Fin.succ)
    (on_tick_app_step vs (App.ticks vs 13 App.new) cidx0)
    (fun c _ b hb => appstep_keep vs b c hb)
    ⟨hstep.1, hstep.2.1, hstep.2.2.1, hstep.2.2.2⟩
  rw [show (14 : ℕ) = 13 + 1 from rfl, App.ticks_succ, App.on_tick_eq_fold,
    finRange_head, List.foldl_cons]
  exact ⟨hfold.2.1, hfold.2.2.1⟩

/-- C10 (amended): a fresh engine's pools are indeed full of alive,
unexploded main-particle placeholders at `(-999.9, -999.9)` with zero
velocity, gravity is `(0, -0.004)`, nothing explodes during the first 13
ticks, and on tick 14 slot 0 of group 0 retires and fires its burst — but
it is not true that *every* placeholder then explodes: the burst overwrites
slots 1–18 with sub-particles before their own loop iterations, so the
placeholder of slot 1 of group 0 is destroyed, never retires, and never
triggers an explosion (no `(0, 1)` event through tick 14). -/
theorem claim_C10_fresh_pools (vs : ℕ → Vector) (c : Fin COLORS.length)
    (j : Fin MAX_PARTICLES_COLOR) :
    (App.new.particle_groups c).particles j =
      Particle.new false ⟨-999.9, -999.9⟩ Vector.zero ∧
    ((App.new.particle_groups c).particles j).dont_delete = true ∧
    ((App.new.particle_groups c).particles j).exploded = false ∧
    ((App.new.particle_groups c).particles j).subparticle = false ∧
    App.new.gravity = ⟨0, -0.004⟩ ∧
    (App.ticks vs 13 App.new).events = [] ∧
    (0, 0) ∈ (App.ticks vs 14 App.new).events ∧
    (0, 1) ∉ (App.ticks vs 14 App.new).events := by
  obtain ⟨h13, h00, h01⟩ := tick14_facts vs
  exact ⟨rfl, rfl, rfl, rfl, rfl, h13, h00, h01⟩

/-- C10 counterexample: the placeholder in slot 1 of group 0 is alive and
unexploded in the fresh engine, nothing explodes during ticks 1–13, slot 0
of group 0 does explode on tick 14 — but slot 1 never does (no `(0, 1)`
event through tick 14, because tick 14's burst from slot 0 overwrites
slot 1 with a sub-particle before slot 1's own iteration), refuting "each
such placeholder … triggers an explosion". -/
theorem claim_C10_counterexample :
    ((App.new.particle_groups cidx0).particles idx1).dont_delete = true ∧
    ((App.new.particle_groups cidx0).particles idx1).subparticle = false ∧
    ((App.new.particle_groups cidx0).particles idx1).exploded = false ∧
    (App.ticks vs0 13 App.new).events = [] ∧
    (0, 0) ∈ (App.ticks vs0 14 App.new).events ∧
    (0, 1) ∉ (App.ticks vs0 14 App.new).events := by
  obtain ⟨h13, h00, h01⟩ := tick14_facts vs0
  exact ⟨rfl, rfl, rfl, h13, h00, h01⟩

/-! ### Claim C1 -/

/-- C1: one call to `Particle::update` behaves exactly as specified: if the
particle is not a sub-particle and (it is already retired or its vertical
velocity is ≤ −0.05), it is marked retired and the call returns with
position, velocity, and acceleration unchanged; otherwise
`velocity += acceleration`, `position += (new) velocity`, the acceleration is
reset to zero, and, exactly when the particle is a sub-particle, the velocity
is then multiplied by 0.98. -/
theorem claim_C1_update_spec (p : Particle) :
    (p.subparticle = false ∧ (p.dont_delete = false ∨ p.vel.y ≤ -0.05) →
      p.update = { p with dont_delete := false }) ∧
    (¬(p.subparticle = false ∧ (p.dont_delete = false ∨ p.vel.y ≤ -0.05)) →
      p.update = { p with
        vel := if p.subparticle = true then (p.vel + p.acc) * (0.98 : ℚ) else p.vel + p.acc
        pos := p.pos + (p.vel + p.acc)
        acc := Vector.zero }) := by
  constructor
  · rintro ⟨hs, hr⟩
    exact Particle.update_retire p hs hr
  · intro h
    by_cases hs : p.subparticle = true
    · rw [Particle.update_sub p hs, if_pos hs]
    · have hs' : p.subparticle = false := by
        cases hb : p.subparticle
        · rfl
        · exact absurd hb hs
      have hd : p.dont_delete = true := by
        cases hb : p.dont_delete
        · exact absurd ⟨hs', Or.inl hb⟩ h
        · rfl
      have hv : ¬p.vel.y ≤ -0.05 := fun hv => h ⟨hs', Or.inr hv⟩
      rw [Particle.update_live_main p hs' hd hv, if_neg hs]

/-- Witness for C1: both branches evaluated at concrete particles — a rising
main particle integrates, a descending main particle retires untouched. -/
theorem claim_C1_update_spec_witness :
    (Particle.new false ⟨0, 0⟩ ⟨0, -0.06⟩).update =
      { Particle.new false ⟨0, 0⟩ ⟨0, -0.06⟩ with dont_delete := false } ∧
    (Particle.new false ⟨0, 0⟩ ⟨0, 1.2⟩).update =
      { Particle.new false ⟨0, 0⟩ ⟨0, 1.2⟩ with
        vel := ⟨0, 1.2⟩ + Vector.zero
        pos := ⟨0, 0⟩ + (⟨0, 1.2⟩ + Vector.zero)
        acc := Vector.zero } := by
  constructor
  · exact (claim_C1_update_spec _).1 ⟨rfl, Or.inr (by norm_num [Particle.new])⟩
  · have h := (claim_C1_update_spec (Particle.new false ⟨0, 0⟩ ⟨0, 1.2⟩)).2
      (by
        rintro ⟨-, h | h⟩
        · cases h
        · norm_num [Particle.new] at h)
    rw [h]
    simp [Particle.new]

/-! ### Claim C3 -/

/-- C3: the explosion latch is one-shot.  If the particle occupying slot `j`
already has `exploded = true`, then over any number of further ticks the
explosion branch never fires for slot `j` (its index is never added to the
explosion-event log): the latch survives integration, and any overwrite of
the slot during a tick installs a sub-particle, which the branch also skips.
Ticks are the only operations performed, matching the claim's proviso that
the slot is not overwritten by a user launch. -/
theorem claim_C3_latch_one_shot (g : Vector) (vs : ℕ → Vector) (s : TickState)
    (j : Fin MAX_PARTICLES_COLOR) (n : ℕ)
    (hE : (s.grp.particles j).exploded = true) (hev : j.val ∉ s.events) :
    j.val ∉ (group_ticks g vs n s).events :=
  (group_ticks_noevent g vs j n s (Or.inl hE) hev).2

/-- Witness for C3 at a concrete state: a pool full of already-exploded main
particles, two ticks, slot 5. -/
theorem claim_C3_latch_one_shot_witness :
    ((mkTickState ({ Particle.new false ⟨0, 0⟩ ⟨0, 0⟩ with exploded := true })).grp.particles
        idx5).exploded = true ∧
    (5 : ℕ) ∉ (group_ticks gravity0 vs0 2
        (mkTickState ({ Particle.new false ⟨0, 0⟩ ⟨0, 0⟩ with exploded := true }))).events := by
  refine ⟨rfl, ?_⟩
  exact claim_C3_latch_one_shot gravity0 vs0 _ idx5 2 rfl (List.not_mem_nil 5)

/-! ### Claim C6 -/

/-- C6: (i) a main particle that is alive with vertical velocity strictly
greater than −0.05 at the start of a tick is not retired by that tick: after
the tick its slot holds an alive particle (`dont_delete = true`, whether the
integrated main particle itself or a sub-particle freshly spawned over it);
(ii) retirement is monotone under ticks: a retired slot stays retired unless
an explosion spawn overwrote it with a (then alive) sub-particle — only a
spawn can set the flag back. -/
theorem claim_C6_threshold_and_monotone (g : Vector) (vs : ℕ → Vector)
    (s : TickState) (j : Fin MAX_PARTICLES_COLOR) :
    ((s.grp.particles j).subparticle = false → (s.grp.particles j).dont_delete = true →
      ¬(s.grp.particles j).vel.y ≤ -0.05 →
      ((on_tick_group g vs s).grp.particles j).dont_delete = true) ∧
    ((s.grp.particles j).dont_delete = false →
      ((on_tick_group g vs s).grp.particles j).dont_delete = false ∨
        ((on_tick_group g vs s).grp.particles j).subparticle = true) := by
  constructor
  · intro _ hd hv
    refine on_tick_group_once g vs j
      (fun p => p.dont_delete = true ∧ (p.subparticle = true ∨ ¬p.vel.y ≤ -0.05))
      (fun p => p.dont_delete = true)
      (fun _ _ => ⟨rfl, Or.inl rfl⟩)
      (fun _ _ => rfl)
      (fun p hp => ?_)
      (fun _ hp => hp)
      s ⟨hd, Or.inr hv⟩
    rcases hp with ⟨hpd, hps | hpv⟩
    · rw [stepP_dd_of_sub g p hps]
      exact hpd
    · by_cases hsub : p.subparticle = true
      · rw [stepP_dd_of_sub g p hsub]
        exact hpd
      · have hsub2 : p.subparticle = false := by
          revert hsub
          cases p.subparticle <;> simp
        rw [stepP_live_main g p hsub2 hpd hpv]
        exact hpd
  · intro hd
    refine on_tick_group_pred g vs
      (fun p => p.dont_delete = false ∨ p.subparticle = true)
      (fun _ _ => Or.inr rfl)
      (fun _ hp => hp)
      (fun p hp => ?_)
      j s (Or.inl hd)
    by_cases hsub : p.subparticle = true
    · exact Or.inr (by rw [(stepP_flags g p).2]; exact hsub)
    · have hsub2 : p.subparticle = false := by
        revert hsub
        cases p.subparticle <;> simp
      have hdd : p.dont_delete = false := by
        rcases hp with h | h
        · exact h
        · exact absurd h hsub
      rw [stepP_retire g p hsub2 (Or.inl hdd)]
      exact Or.inl rfl

/-- Witness for C6: a rising rocket (velocity `(0, 1.2)`) stays alive through
a tick; a retired main particle stays retired (or is replaced by a sub). -/
theorem claim_C6_threshold_and_monotone_witness :
    (¬((mkTickState (Particle.new false ⟨0, 0⟩ ⟨0, 1.2⟩)).grp.particles idx0).vel.y ≤ -0.05) ∧
    ((on_tick_group gravity0 vs0
        (mkTickState (Particle.new false ⟨0, 0⟩ ⟨0, 1.2⟩))).grp.particles idx0).dont_delete =
      true ∧
    (((on_tick_group gravity0 vs0
        (mkTickState ({ Particle.new false ⟨0, 0⟩ ⟨0, 0⟩ with dont_delete := false
          }))).grp.particles idx0).dont_delete = false ∨
      ((on_tick_group gravity0 vs0
        (mkTickState ({ Particle.new false ⟨0, 0⟩ ⟨0, 0⟩ with dont_delete := false
          }))).grp.particles idx0).subparticle = true) := by
  have hv : ¬((mkTickState (Particle.new false ⟨0, 0⟩ ⟨0, 1.2⟩)).grp.particles
      idx0).vel.y ≤ -0.05 := by
    show ¬(1.2 : ℚ) ≤ -0.05
    norm_num
  refine ⟨hv, ?_, ?_⟩
  · exact (claim_C6_threshold_and_monotone gravity0 vs0
      (mkTickState (Particle.new false ⟨0, 0⟩ ⟨0, 1.2⟩)) idx0).1 rfl rfl hv
  · exact (claim_C6_threshold_and_monotone gravity0 vs0
      (mkTickState ({ Particle.new false ⟨0, 0⟩ ⟨0, 0⟩ with dont_delete := false }))
      idx0).2 rfl

end FW
